import Mathlib

/-!
Shallow embedding of the diagram-generation agent's tracing, redaction,
session and tool-dispatch pipeline (`agent.py`, `session.py`,
`tools/implementations.py`) with proofs about the embedded operations.

Python strings are modelled as Lean `String` (a sequence of unicode scalar
values); `len(s.encode("utf-8"))` is modelled by summing `Char.utf8Size`.
Character-class predicates (`\w`, `\s`, `str.upper`, `str.lower`,
`str.isdigit`) are modelled at ASCII precision, which is exact on every
string the proofs below evaluate.
-/

set_option maxRecDepth 4000

-- ── Python-style character classes and string primitives ─────────────────────

/-- Python regex class `\s` (whitespace), ASCII precision. -/
def pyIsSpace (c : Char) : Bool :=
  c = ' ' || c = '\t' || c = '\n' || c = '\x0d' || c = '\x0b' || c = '\x0c'

/-- Python regex class `\w` (word character), ASCII precision. -/
def pyIsWord (c : Char) : Bool :=
  c.isAlpha || c.isDigit || c = '_'

/-- Line-break characters recognised by Python `str.splitlines`. -/
def pyIsLineBreak (c : Char) : Bool :=
  c = '\n' || c = '\x0d' || c = '\x0b' || c = '\x0c' || c = '\x1c' ||
  c = '\x1d' || c = '\x1e' || c = '\x85' || c = ' ' || c = ' '

/-- Python `str.lower` (ASCII precision). -/
def asciiLower (s : String) : String := String.mk (s.data.map Char.toLower)

/-- Python `str.upper` (ASCII precision). -/
def asciiUpper (s : String) : String := String.mk (s.data.map Char.toUpper)

/-- Python `s.endswith(suffix)`. -/
def pyEndsWith (s sfx : String) : Bool := sfx.data.isSuffixOf s.data

/-- Python `s.startswith(pre)`. -/
def pyStartsWith (s pre : String) : Bool := pre.data.isPrefixOf s.data

/-- `needle` occurs as a contiguous sublist of `haystack`. -/
def listInfix (needle : List Char) : List Char → Bool
  | [] => needle.isPrefixOf []
  | c :: cs => needle.isPrefixOf (c :: cs) || listInfix needle cs

/-- Python `needle in haystack` (substring containment). -/
def pyContains (haystack needle : String) : Bool := listInfix needle.data haystack.data

/-- `len(s.encode("utf-8"))` accumulated character by character. -/
def utf8LenL : List Char → Nat
  | [] => 0
  | c :: cs => c.utf8Size + utf8LenL cs

/-- `_utf8_size(value)` (agent.py 129-130): `len(value.encode("utf-8"))`. -/
def utf8Len (s : String) : Nat := utf8LenL s.data

-- ── Decimal formatting / parsing (Python f"{n}", int(s)) ─────────────────────

/-- Decimal digits of `n`, least significant first, as characters.  The
fuel argument makes the recursion structural (hence executable in proofs);
any fuel `≥ n` gives the exact digit list. -/
def decimalDigitsRev (fuel : Nat) (n : Nat) : List Char :=
  match fuel with
  | 0 => []
  | fuel + 1 => if n = 0 then [] else Char.ofNat (48 + n % 10) :: decimalDigitsRev fuel (n / 10)

/-- Python decimal formatting of a natural number (`f"{n}"`, `str(n)`). -/
def natToDecimal (n : Nat) : String :=
  if n = 0 then "0" else String.mk (decimalDigitsRev n n).reverse

/-- Python decimal formatting of an integer (`str(n)`, `repr(n)`). -/
def intToDecimal (n : Int) : String :=
  if n < 0 then "-" ++ natToDecimal n.natAbs else natToDecimal n.natAbs

/-- Python `s.isdigit()`-guarded `int(s)`: `some` iff nonempty and all ASCII
digits, value accumulated by Horner's rule. -/
def decimalToNat? (cs : List Char) : Option Nat :=
  if cs ≠ [] ∧ cs.all Char.isDigit then
    some (cs.foldl (fun acc c => 10 * acc + (c.toNat - 48)) 0)
  else none

-- ── _truncate_to_bytes (agent.py 137-153) ────────────────────────────────────

/-- `_TRUNCATION_SUFFIX` (agent.py 37). -/
def TRUNCATION_SUFFIX : String := "...[truncated]"

/-- The byte-budgeted character-greedy prefix loop of `_truncate_to_bytes`:
append each character whole while it still fits in `budget` bytes, stop at
the first character that does not fit. -/
def truncTake (budget : Nat) : Nat → List Char → List Char
  | _, [] => []
  | used, c :: cs =>
    if used + c.utf8Size > budget then []
    else c :: truncTake budget (used + c.utf8Size) cs

/-- `_truncate_to_bytes(value, max_bytes)` (agent.py 137-153).  In the
small-ceiling branch the source byte-slices the suffix constant and decodes
ignoring errors; the constant is pure ASCII, so that equals taking
`max_bytes` characters. -/
def truncateToBytes (value : String) (maxBytes : Nat) : String × Bool :=
  if utf8Len value ≤ maxBytes then (value, false)
  else if maxBytes ≤ utf8Len TRUNCATION_SUFFIX then
    (String.mk (TRUNCATION_SUFFIX.data.take maxBytes), true)
  else
    let budget := maxBytes - utf8Len TRUNCATION_SUFFIX
    (String.mk (truncTake budget 0 value.data) ++ TRUNCATION_SUFFIX, true)

-- ── JSON-shaped Python values ────────────────────────────────────────────────

/-- JSON-serialisable Python values (dicts keep insertion order, as Python
dicts do). -/
inductive Json where
  | null
  | bool (b : Bool)
  | num (n : Int)
  | str (s : String)
  | arr (items : List Json)
  | obj (entries : List (String × Json))

mutual
/-- Decidable equality of JSON values (the nested inductive defeats
`deriving`). -/
def Json.decEq : (a b : Json) → Decidable (a = b)
  | .null, .null => isTrue rfl
  | .bool x, .bool y =>
    match Bool.decEq x y with
    | isTrue h => isTrue (by rw [h])
    | isFalse h => isFalse (fun hh => h (by cases hh; rfl))
  | .num x, .num y =>
    match Int.decEq x y with
    | isTrue h => isTrue (by rw [h])
    | isFalse h => isFalse (fun hh => h (by cases hh; rfl))
  | .str x, .str y =>
    match String.decEq x y with
    | isTrue h => isTrue (by rw [h])
    | isFalse h => isFalse (fun hh => h (by cases hh; rfl))
  | .arr xs, .arr ys =>
    match Json.decEqList xs ys with
    | isTrue h => isTrue (by rw [h])
    | isFalse h => isFalse (fun hh => h (by cases hh; rfl))
  | .obj xs, .obj ys =>
    match Json.decEqEntries xs ys with
    | isTrue h => isTrue (by rw [h])
    | isFalse h => isFalse (fun hh => h (by cases hh; rfl))
  | .null, .bool _ => isFalse nofun
  | .null, .num _ => isFalse nofun
  | .null, .str _ => isFalse nofun
  | .null, .arr _ => isFalse nofun
  | .null, .obj _ => isFalse nofun
  | .bool _, .null => isFalse nofun
  | .bool _, .num _ => isFalse nofun
  | .bool _, .str _ => isFalse nofun
  | .bool _, .arr _ => isFalse nofun
  | .bool _, .obj _ => isFalse nofun
  | .num _, .null => isFalse nofun
  | .num _, .bool _ => isFalse nofun
  | .num _, .str _ => isFalse nofun
  | .num _, .arr _ => isFalse nofun
  | .num _, .obj _ => isFalse nofun
  | .str _, .null => isFalse nofun
  | .str _, .bool _ => isFalse nofun
  | .str _, .num _ => isFalse nofun
  | .str _, .arr _ => isFalse nofun
  | .str _, .obj _ => isFalse nofun
  | .arr _, .null => isFalse nofun
  | .arr _, .bool _ => isFalse nofun
  | .arr _, .num _ => isFalse nofun
  | .arr _, .str _ => isFalse nofun
  | .arr _, .obj _ => isFalse nofun
  | .obj _, .null => isFalse nofun
  | .obj _, .bool _ => isFalse nofun
  | .obj _, .num _ => isFalse nofun
  | .obj _, .str _ => isFalse nofun
  | .obj _, .arr _ => isFalse nofun

/-- Decidable equality of JSON value lists. -/
def Json.decEqList : (a b : List Json) → Decidable (a = b)
  | [], [] => isTrue rfl
  | [], _ :: _ => isFalse nofun
  | _ :: _, [] => isFalse nofun
  | x :: xs, y :: ys =>
    match Json.decEq x y with
    | isFalse h => isFalse (fun hh => h (by cases hh; rfl))
    | isTrue h1 =>
      match Json.decEqList xs ys with
      | isTrue h2 => isTrue (by rw [h1, h2])
      | isFalse h => isFalse (fun hh => h (by cases hh; rfl))

/-- Decidable equality of JSON object entry lists. -/
def Json.decEqEntries : (a b : List (String × Json)) → Decidable (a = b)
  | [], [] => isTrue rfl
  | [], _ :: _ => isFalse nofun
  | _ :: _, [] => isFalse nofun
  | (k1, v1) :: xs, (k2, v2) :: ys =>
    match String.decEq k1 k2 with
    | isFalse h => isFalse (fun hh => h (by cases hh; rfl))
    | isTrue hk =>
      match Json.decEq v1 v2 with
      | isFalse h => isFalse (fun hh => h (by cases hh; rfl))
      | isTrue hv =>
        match Json.decEqEntries xs ys with
        | isTrue h2 => isTrue (by rw [hk, hv, h2])
        | isFalse h => isFalse (fun hh => h (by cases hh; rfl))
end

instance : DecidableEq Json := Json.decEq

/-- A Python `dict[str, Any]` of JSON-shaped values, in insertion order. -/
abbrev PyDict := List (String × Json)

/-- Python truthiness (`bool(x)`) of a JSON-shaped value. -/
def pyTruthy : Json → Bool
  | .null => false
  | .bool b => b
  | .num n => n != 0
  | .str s => s != ""
  | .arr l => !l.isEmpty
  | .obj l => !l.isEmpty

/-- One character of Python `repr` of a string (approximation: escapes the
quote, backslash and common control characters; other characters pass
through unescaped).  Only reached through `str()` of a container, which no
evaluated path below exercises. -/
def pyReprEscChar (quote : Char) (c : Char) : List Char :=
  if c = '\\' then ['\\', '\\']
  else if c = quote then ['\\', quote]
  else if c = '\n' then ['\\', 'n']
  else if c = '\x0d' then ['\\', 'r']
  else if c = '\t' then ['\\', 't']
  else [c]

/-- Python `repr` of a string: single-quoted, except double-quoted when the
string contains a single quote but no double quote. -/
def pyReprStr (s : String) : String :=
  let q := if s.data.contains (Char.ofNat 39) && !(s.data.contains '"') then '"' else Char.ofNat 39
  String.mk (q :: s.data.flatMap (pyReprEscChar q) ++ [q])

mutual
/-- Python `repr` of a JSON-shaped value. -/
def pyRepr : Json → String
  | .null => "None"
  | .bool b => if b then "True" else "False"
  | .num n => intToDecimal n
  | .str s => pyReprStr s
  | .arr items => "[" ++ String.intercalate ", " (pyReprList items) ++ "]"
  | .obj entries => "\x7b" ++ String.intercalate ", " (pyReprObj entries) ++ "\x7d"

/-- `repr` of each array element. -/
def pyReprList : List Json → List String
  | [] => []
  | j :: js => pyRepr j :: pyReprList js

/-- `repr` of each dict entry (`'key': value`). -/
def pyReprObj : List (String × Json) → List String
  | [] => []
  | (k, v) :: rest => (pyReprStr k ++ ": " ++ pyRepr v) :: pyReprObj rest
end

/-- Python `str(x)` of a JSON-shaped value. -/
def pyStr : Json → String
  | .str s => s
  | .null => "None"
  | .bool b => if b then "True" else "False"
  | .num n => intToDecimal n
  | .arr items => pyRepr (.arr items)
  | .obj entries => pyRepr (.obj entries)

-- ── json.dumps (default arguments: ensure_ascii, separators (", ", ": ")) ────

/-- Lower-case hexadecimal digit. -/
def hexDigitChar (n : Nat) : Char :=
  if n < 10 then Char.ofNat (48 + n) else Char.ofNat (87 + n)

/-- A `\uXXXX` escape. -/
def uEsc (n : Nat) : List Char :=
  ['\\', 'u', hexDigitChar (n / 4096 % 16), hexDigitChar (n / 256 % 16),
   hexDigitChar (n / 16 % 16), hexDigitChar (n % 16)]

/-- `json.dumps` escaping of one character with `ensure_ascii=True`: short
escapes for the common control characters, printable ASCII passes through,
everything else becomes `\uXXXX` (a surrogate pair beyond the BMP). -/
def jsonEscapeChar (c : Char) : List Char :=
  if c = '"' then ['\\', '"']
  else if c = '\\' then ['\\', '\\']
  else if c = '\n' then ['\\', 'n']
  else if c = '\t' then ['\\', 't']
  else if c = '\x0d' then ['\\', 'r']
  else if c = '\x08' then ['\\', 'b']
  else if c = '\x0c' then ['\\', 'f']
  else if 0x20 ≤ c.toNat ∧ c.toNat ≤ 0x7e then [c]
  else if c.toNat < 0x10000 then uEsc c.toNat
  else uEsc (0xd800 + (c.toNat - 0x10000) / 0x400) ++ uEsc (0xdc00 + (c.toNat - 0x10000) % 0x400)

/-- A JSON string literal: quoted, characters escaped. -/
def jsonEscape (s : String) : String :=
  String.mk ('"' :: s.data.flatMap jsonEscapeChar ++ ['"'])

mutual
/-- `json.dumps(v)` with default arguments: separators `", "` and `": "`,
`ensure_ascii=True`, keys in dict insertion order (`sort_keys=False`). -/
def jsonDumps : Json → String
  | .null => "null"
  | .bool b => if b then "true" else "false"
  | .num n => intToDecimal n
  | .str s => jsonEscape s
  | .arr items => "[" ++ String.intercalate ", " (jsonDumpsList items) ++ "]"
  | .obj entries => "\x7b" ++ String.intercalate ", " (jsonDumpsObj entries) ++ "\x7d"

/-- Serialisation of each array element. -/
def jsonDumpsList : List Json → List String
  | [] => []
  | j :: js => jsonDumps j :: jsonDumpsList js

/-- Serialisation of each dict entry. -/
def jsonDumpsObj : List (String × Json) → List String
  | [] => []
  | (k, v) :: rest => (jsonEscape k ++ ": " ++ jsonDumps v) :: jsonDumpsObj rest
end

-- ── Ordered-dict primitives ──────────────────────────────────────────────────

/-- `d.get(k)`: the value at the first matching key. -/
def objGet (d : PyDict) (k : String) : Option Json :=
  (d.find? (fun e => e.1 == k)).map (fun e => e.2)

/-- `d[k] = v`: replace in place if the key exists, append otherwise
(Python dict assignment preserves insertion position of existing keys). -/
def objSet : PyDict → String → Json → PyDict
  | [], k, v => [(k, v)]
  | (k1, v1) :: rest, k, v =>
    if k1 = k then (k1, v) :: rest else (k1, v1) :: objSet rest k v

/-- `d.get(k) is not None`: key present with a non-`None` value. -/
def isNotNone : Option Json → Bool
  | some .null => false
  | some _ => true
  | none => false

-- ── _redact_structured (agent.py 156-189) ────────────────────────────────────

/-- `_SENSITIVE_EXACT_KEYS` (agent.py 57-74). -/
def SENSITIVE_EXACT_KEYS : List String :=
  ["authorization", "proxy-authorization", "cookie", "set-cookie", "api_key",
   "apikey", "access_token", "refresh_token", "id_token", "token", "secret",
   "client_secret", "password", "passphrase", "private_key", "ssh_key"]

/-- `_is_sensitive_key(key)` (agent.py 156-165). -/
def isSensitiveKey (key : String) : Bool :=
  let k := asciiLower key
  SENSITIVE_EXACT_KEYS.contains k ||
  pyEndsWith k "_key" || pyEndsWith k "_token" ||
  pyEndsWith k "_secret" || pyEndsWith k "_password"

mutual
/-- `_redact_structured(value, rules)` (agent.py 168-189).  The `rules`
out-parameter is not modelled separately: the source adds exactly the one
rule name `"key_based"`, and does so precisely when the returned flag is
true. -/
def redactStructured : Json → Json × Bool
  | .obj entries =>
    let r := redactStructuredObj entries
    (.obj r.1, r.2)
  | .arr items =>
    let r := redactStructuredList items
    (.arr r.1, r.2)
  | v => (v, false)

/-- The dict branch: sensitive keys get `"[REDACTED]"`, other values are
redacted recursively. -/
def redactStructuredObj : List (String × Json) → List (String × Json) × Bool
  | [] => ([], false)
  | (k, item) :: rest =>
    if isSensitiveKey k then
      let r := redactStructuredObj rest
      ((k, .str "[REDACTED]") :: r.1, true)
    else
      let ri := redactStructured item
      let r := redactStructuredObj rest
      ((k, ri.1) :: r.1, ri.2 || r.2)

/-- The list branch: elements are redacted recursively. -/
def redactStructuredList : List Json → List Json × Bool
  | [] => ([], false)
  | item :: rest =>
    let ri := redactStructured item
    let r := redactStructuredList rest
    (ri.1 :: r.1, ri.2 || r.2)
end

-- ── A scanner for the fixed regex rule set of _redact_text ───────────────────

/-- One `re.subn` pass: at each position of the original text try the
matcher (which receives the previous original character, for `\b` checks,
and the remaining original text, and returns the matched length with the
replacement); on a match emit the replacement and resume after the matched
characters, otherwise copy one character.  This mirrors `re.subn`: matches
are found against the original text, left to right, non-overlapping (no
embedded pattern can match the empty string). -/
def subnAux (tryM : Option Char → List Char → Option (Nat × List Char)) :
    Nat → Option Char → List Char → List Char × Nat
  | 0, _, _ => ([], 0)
  | _ + 1, _, [] => ([], 0)
  | fuel + 1, prev, c :: cs =>
    match tryM prev (c :: cs) with
    | some (k + 1, rep) =>
      let last := ((c :: cs).take (k + 1)).getLastD c
      let r := subnAux tryM fuel (some last) ((c :: cs).drop (k + 1))
      (rep ++ r.1, r.2 + 1)
    | _ =>
      let r := subnAux tryM fuel (some c) cs
      (c :: r.1, r.2)

/-- `pattern.subn(replacement, text)`.  Every step consumes at least one
character of the original text, so fuel equal to the text length makes the
fuel bound unreachable (the fuel only keeps the recursion structural). -/
def subn (tryM : Option Char → List Char → Option (Nat × List Char)) (s : String) :
    String × Nat :=
  let r := subnAux tryM s.data.length none s.data
  (String.mk r.1, r.2)

/-- Case-insensitive ASCII literal at the head of the text. -/
def headIsCI : List Char → List Char → Bool
  | [], _ => true
  | _ :: _, [] => false
  | a :: ls, c :: cs => a.toLower == c.toLower && headIsCI ls cs

/-- Case-sensitive literal at the head of the text. -/
def headIs (lit s : List Char) : Bool := lit.isPrefixOf s

/-- Length of the maximal run of characters satisfying `p` (a greedy
character-class quantifier). -/
def munch (p : Char → Bool) : List Char → Nat
  | [] => 0
  | c :: cs => if p c then munch p cs + 1 else 0

/-- `[A-Za-z0-9]` (regex classes are ASCII-explicit in the source). -/
def isAlnumAscii (c : Char) : Bool := c.isAlpha || c.isDigit

/-- `\b` between the last matched character `a` and the following original
character (`none` at end of text: a word boundary iff `a` is a word
character). -/
def boundaryAfter (a : Char) (next : Option Char) : Bool :=
  pyIsWord a != (match next with | some c => pyIsWord c | none => false)

/-- `\b` before the first character `c` of a candidate match, given the
previous original character (`none` at the start of text). -/
def boundaryBefore (prev : Option Char) (c : Char) : Bool :=
  (match prev with | some p => pyIsWord p | none => false) != pyIsWord c

/-- Greedy `class{min,}\b` tail: the largest `k` with `min ≤ k ≤ run` such
that `\b` holds after the `k`-th class character — Python's greedy
quantifier tries the longest first and backtracks. -/
def backtrackRun (s : List Char) (minRun : Nat) : Nat → Option Nat
  | 0 => none
  | k + 1 =>
    if minRun ≤ k + 1 && boundaryAfter (s.getD k ' ') ((s.drop (k + 1)).head?) then
      some (k + 1)
    else backtrackRun s minRun k

/-- Greedy `[A-Z ]*` followed by a literal: the largest `k ≤ run` at which
the literal follows. -/
def backtrackLit (s lit : List Char) : Nat → Option Nat
  | 0 => if headIs lit s then some 0 else none
  | k + 1 => if headIs lit (s.drop (k + 1)) then some (k + 1) else backtrackLit s lit k

-- ── The nine _TEXT_REDACTION_PATTERNS (agent.py 76-124) ──────────────────────

/-- `(?i)authorization\s*[:=]\s*(bearer|basic)\s+[^\s"]+` with replacement
`f"authorization: {m.group(1).lower()} [REDACTED]"`.  The alternation and
the greedy quantifiers need no extra backtracking here: the two keywords
are never both prefixes of the same text, and each character class is
disjoint from what must follow it. -/
def tryAuthHeader (_prev : Option Char) (s : List Char) : Option (Nat × List Char) :=
  let lit := "authorization".data
  if headIsCI lit s then
    let s1 := s.drop lit.length
    let w1 := munch pyIsSpace s1
    match s1.drop w1 with
    | c :: rest =>
      if c = ':' || c = '=' then
        let w2 := munch pyIsSpace rest
        let s3 := rest.drop w2
        let kw : Option (String × Nat) :=
          if headIsCI "bearer".data s3 then some ("bearer", 6)
          else if headIsCI "basic".data s3 then some ("basic", 5)
          else none
        match kw with
        | some (g, kwLen) =>
          let s4 := s3.drop kwLen
          let w3 := munch pyIsSpace s4
          if w3 = 0 then none
          else
            let t := munch (fun ch => !pyIsSpace ch && ch != '"') (s4.drop w3)
            if t = 0 then none
            else some (lit.length + w1 + 1 + w2 + kwLen + w3 + t,
                       ("authorization: " ++ g ++ " [REDACTED]").data)
        | none => none
      else none
    | [] => none
  else none

/-- The `\s*[:=]\s*[^\s"]+` tail shared by the header patterns; returns the
consumed length. -/
def sepValue (s : List Char) : Option Nat :=
  let w1 := munch pyIsSpace s
  match s.drop w1 with
  | c :: rest =>
    if c = ':' || c = '=' then
      let w2 := munch pyIsSpace rest
      let t := munch (fun ch => !pyIsSpace ch && ch != '"') (rest.drop w2)
      if t = 0 then none else some (w1 + 1 + w2 + t)
    else none
  | [] => none

/-- `(?i)(x-api-key|api-key|x-auth-token|x-access-token)\s*[:=]\s*[^\s"]+`
with replacement `f"{m.group(1)}: [REDACTED]"` (the group keeps its original
case).  At any one position at most one alternative matches, so the ordered
alternation needs no backtracking. -/
def trySecretHeader (_prev : Option Char) (s : List Char) : Option (Nat × List Char) :=
  let alt : Option Nat :=
    if headIsCI "x-api-key".data s then some 9
    else if headIsCI "api-key".data s then some 7
    else if headIsCI "x-auth-token".data s then some 12
    else if headIsCI "x-access-token".data s then some 14
    else none
  match alt with
  | some n =>
    match sepValue (s.drop n) with
    | some m => some (n + m, s.take n ++ ": [REDACTED]".data)
    | none => none
  | none => none

/-- `\b<pre><cls>{min,}\b` with a fixed replacement — the shape of the
openai/anthropic/github key patterns. -/
def tryPrefixKey (pre : List Char) (cls : Char → Bool) (minRun : Nat) (rep : List Char)
    (prev : Option Char) (s : List Char) : Option (Nat × List Char) :=
  match s with
  | [] => none
  | c :: _ =>
    if boundaryBefore prev c && headIs pre s then
      let s1 := s.drop pre.length
      match backtrackRun s1 minRun (munch cls s1) with
      | some k => some (pre.length + k, rep)
      | none => none
    else none

/-- `\bxox[baprs]-[A-Za-z0-9-]{10,}\b` with replacement `"xox*- [REDACTED]"`. -/
def trySlack (prev : Option Char) (s : List Char) : Option (Nat × List Char) :=
  match s with
  | [] => none
  | c :: _ =>
    if boundaryBefore prev c && headIs "xox".data s then
      match s.drop 3 with
      | t :: rest =>
        if t = 'b' || t = 'a' || t = 'p' || t = 'r' || t = 's' then
          match rest with
          | '-' :: body =>
            match backtrackRun body 10 (munch (fun ch => isAlnumAscii ch || ch = '-') body) with
            | some k => some (3 + 1 + 1 + k, "xox*- [REDACTED]".data)
            | none => none
          | _ => none
        else none
      | [] => none
    else none

/-- `-----<word> [A-Z ]*PRIVATE KEY-----`; returns the consumed length. -/
def blockHalf (word : List Char) (s : List Char) : Option Nat :=
  let lit := "-----".data ++ word ++ [' ']
  if headIs lit s then
    let s1 := s.drop lit.length
    match backtrackLit s1 "PRIVATE KEY-----".data (munch (fun c => ('A' ≤ c && c ≤ 'Z') || c = ' ') s1) with
    | some k => some (lit.length + k + 16)
    | none => none
  else none

/-- Lazy scan for `[\s\S]*?<end-part>`: the smallest offset at which the
end part matches; returns (offset, consumed by the end part). -/
def lazyScan (f : List Char → Option Nat) : List Char → Option (Nat × Nat)
  | [] => (f []).map (fun n => (0, n))
  | c :: cs =>
    match f (c :: cs) with
    | some n => some (0, n)
    | none => (lazyScan f cs).map (fun r => (r.1 + 1, r.2))

/-- `-----BEGIN [A-Z ]*PRIVATE KEY-----[\s\S]*?-----END [A-Z ]*PRIVATE KEY-----`
with the fixed replacement; greedy/lazy backtracking is modelled one level
deep, which is exact for every block whose end marker follows the begin
marker. -/
def tryPrivateKeyBlock (_prev : Option Char) (s : List Char) : Option (Nat × List Char) :=
  match blockHalf "BEGIN".data s with
  | some n1 =>
    match lazyScan (blockHalf "END".data) (s.drop n1) with
    | some (j, n2) => some (n1 + j + n2, "[REDACTED_PRIVATE_KEY_BLOCK]".data)
    | none => none
  | none => none

/-- `(?m)^([A-Z0-9_]{2,})=(.+)$` with replacement
`f"{m.group(1)}=[REDACTED]"`: anchored at the start of text or right after
a newline; `.` excludes the newline, so the greedy `(.+)$` runs to the end
of the line. -/
def tryDotenv (prev : Option Char) (s : List Char) : Option (Nat × List Char) :=
  if prev = none || prev = some '\n' then
    let k := munch (fun c => ('A' ≤ c && c ≤ 'Z') || c.isDigit || c = '_') s
    if 2 ≤ k then
      match s.drop k with
      | '=' :: rest =>
        let r := munch (fun c => c ≠ '\n') rest
        if r = 0 then none
        else some (k + 1 + r, s.take k ++ "=[REDACTED]".data)
      | _ => none
    else none
  else none

/-- `_TEXT_REDACTION_PATTERNS` (agent.py 76-124), in source order. -/
def TEXT_REDACTION_PATTERNS : List (String × (Option Char → List Char → Option (Nat × List Char))) :=
  [("auth_header", tryAuthHeader),
   ("header_secret", trySecretHeader),
   ("openai_key", tryPrefixKey "sk-".data isAlnumAscii 20 "sk-[REDACTED]".data),
   ("anthropic_key", tryPrefixKey "sk-ant-".data (fun c => isAlnumAscii c || c = '_' || c = '-') 20 "sk-ant-[REDACTED]".data),
   ("github_token", tryPrefixKey "ghp_".data isAlnumAscii 20 "ghp_[REDACTED]".data),
   ("github_token", tryPrefixKey "github_pat_".data (fun c => isAlnumAscii c || c = '_') 20 "github_pat_[REDACTED]".data),
   ("slack_token", trySlack),
   ("private_key_block", tryPrivateKeyBlock),
   ("dotenv_line", tryDotenv)]

-- ── The _redact_text pass (agent.py 216-256) ─────────────────────────────────

/-- Add a rule name to the (set-like) fired-rule list. -/
def addRule (rules : List String) (r : String) : List String :=
  if rules.contains r then rules else rules ++ [r]

/-- The pattern half of one pass of the while-loop: apply each pattern's
`subn` in order, recording a rule name whenever its count is nonzero. -/
def patternStepGo : List (String × (Option Char → List Char → Option (Nat × List Char))) →
    String × Bool × List String → String × Bool × List String
  | [], acc => acc
  | nt :: ps, acc =>
    let r := subn nt.2 acc.1
    patternStepGo ps (if r.2 ≠ 0 then (r.1, true, addRule acc.2.2 nt.1) else (r.1, acc.2.1, acc.2.2))

/-- The pattern half of one pass of the while-loop. -/
def patternStep (text : String) : String × Bool × List String :=
  patternStepGo TEXT_REDACTION_PATTERNS (text, false, [])

/-- `_ENV_LINE_KEYS` (agent.py 126). -/
def ENV_LINE_KEYS : List String := ["ANTHROPIC_API_KEY", "OPENAI_API_KEY", "OPENAI_BASE_URL"]

/-- `str.splitlines(keepends=True)` (terminators kept; `\r\n` is one
break).  Fuel keeps the recursion structural; `fuel = length` suffices as
every step consumes at least one character. -/
def splitLinesKeep : Nat → List Char → List Char → List (List Char)
  | 0, acc, rest => if (acc = [] && rest = []) then [] else [acc.reverse ++ rest]
  | _ + 1, acc, [] => if acc = [] then [] else [acc.reverse]
  | fuel + 1, acc, c :: cs =>
    if c = '\x0d' then
      match cs with
      | '\n' :: cs2 => (acc.reverse ++ ['\x0d', '\n']) :: splitLinesKeep fuel [] cs2
      | _ => (acc.reverse ++ ['\x0d']) :: splitLinesKeep fuel [] cs
    else if pyIsLineBreak c then (acc.reverse ++ [c]) :: splitLinesKeep fuel [] cs
    else splitLinesKeep fuel (c :: acc) cs

/-- `re.sub(r"=[^\s]+", "=[REDACTED]", line)`: the matcher for one match. -/
def tryEqValue (_prev : Option Char) (s : List Char) : Option (Nat × List Char) :=
  match s with
  | '=' :: rest =>
    let t := munch (fun c => !pyIsSpace c) rest
    if t = 0 then none else some (1 + t, "=[REDACTED]".data)
  | _ => none

/-- Per-line processing of the env-line half (agent.py 231-236): a line
whose upper-cased form contains `KEY=` for a known key gets its `=value`
spans replaced. -/
def envLineMap (line : List Char) : List Char × Bool :=
  if ENV_LINE_KEYS.any (fun k => listInfix (k ++ "=").data (line.map Char.toUpper)) then
    ((subnAux tryEqValue line.length none line).1, true)
  else (line, false)

/-- The env-line half of one pass (agent.py 229-241): process every line;
the joined text is assigned only when some line fired. -/
def envLineStep (text : String) : String × Bool :=
  if (((splitLinesKeep text.data.length [] text.data).map envLineMap).any (fun p => p.2)) then
    (String.mk ((((splitLinesKeep text.data.length [] text.data).map envLineMap).map (fun p => p.1)).flatten), true)
  else (text, false)

/-- Python `text.replace(needle, rep)`: all occurrences, left to right,
non-overlapping. -/
def replaceAllL (needle rep : List Char) : Nat → List Char → List Char
  | 0, rest => rest
  | _ + 1, [] => []
  | fuel + 1, c :: cs =>
    if needle ≠ [] && needle.isPrefixOf (c :: cs) then
      rep ++ replaceAllL needle rep fuel ((c :: cs).drop needle.length)
    else c :: replaceAllL needle rep fuel cs

/-- `text.replace(env_val, "[REDACTED_ENV]")` on strings (fuel as in
`subn`: every step consumes at least one character). -/
def replaceAll (s needle rep : String) : String :=
  String.mk (replaceAllL needle.data rep.data s.data.length s.data)

/-- The env-value half of one pass (agent.py 243-251): each live-environment
secret value (in longest-first order) found in the text is replaced
everywhere by the fixed marker. -/
def envValueStep (envVals : List String) (text : String) : String × Bool :=
  envVals.foldl
    (fun acc envVal =>
      if envVal ≠ "" && pyContains acc.1 envVal then
        (replaceAll acc.1 envVal "[REDACTED_ENV]", true)
      else acc)
    (text, false)

/-- One full iteration of the `while True` body of `_redact_text`
(agent.py 220-254): text after the pass, whether any rule fired, the rule
names that fired. -/
def redactPass (envVals : List String) (text : String) : String × Bool × List String :=
  let p := patternStep text
  let e := envLineStep p.1
  let rules2 := if e.2 then addRule p.2.2 "env_line" else p.2.2
  let v := envValueStep envVals e.1
  let rules3 := if v.2 then addRule rules2 "env_value" else rules2
  (v.1, p.2.1 || e.2 || v.2, rules3)

/-- The while-loop of `_redact_text`, fuel-indexed: run passes until one
fires no rule, then return the (unchanged) text of that pass together with
the accumulated changed flag and rule names.  `none` means the loop has not
exited within `fuel` passes; the loop body is a deterministic function of
the text, so `none` at every fuel means the source loops forever. -/
def redactTextGo (envVals : List String) : Nat → String → Bool → List String →
    Option (String × Bool × List String)
  | 0, _, _, _ => none
  | fuel + 1, text, changedAny, rules =>
    let p := redactPass envVals text
    let rules2 := p.2.2.foldl addRule rules
    if p.2.1 then redactTextGo envVals fuel p.1 true rules2
    else some (text, changedAny, rules)

/-- `_redact_text(value, rules)` (agent.py 216-256), fuel-indexed, with the
startup-scanned environment secret values as a parameter
(`_ENV_SECRET_VALUES`, agent.py 213). -/
def redactText (envVals : List String) (fuel : Nat) (s : String) :
    Option (String × Bool × List String) :=
  redactTextGo envVals fuel s false []

/-- Stable descending insertion by string length
(`values.sort(key=len, reverse=True)`). -/
def insertDescLen (x : String) : List String → List String
  | [] => [x]
  | y :: ys => if y.length ≤ x.length then x :: y :: ys else y :: insertDescLen x ys

/-- `_build_env_secret_values()` (agent.py 192-210) over an explicit
process environment (`os.environ` in iteration order): keep values of
secret-looking names or of length ≥ 20, sorted longest first. -/
def buildEnvSecretValues (env : List (String × String)) : List String :=
  let values := env.foldl
    (fun acc kv =>
      if kv.2 = "" then acc
      else
        let upperKey := asciiUpper kv.1
        let looksSecretName :=
          ENV_LINE_KEYS.contains upperKey || pyContains upperKey "KEY" ||
          pyContains upperKey "TOKEN" || pyContains upperKey "SECRET" ||
          pyContains upperKey "PASSWORD" || pyContains upperKey "PASSPHRASE" ||
          pyContains upperKey "AUTH"
        if looksSecretName || 20 ≤ kv.2.length then acc ++ [kv.2] else acc)
    []
  values.foldr insertDescLen []

-- ── _finalize_trace_payload (agent.py 331-449) ───────────────────────────────

/-- `_MAX_EVENT_BYTES` (agent.py 36). -/
def MAX_EVENT_BYTES : Nat := 65536

/-- `_FIELD_LIMITS` (agent.py 39-52). -/
def FIELD_LIMITS : List (String × Nat) :=
  [("tool", 64), ("tool_use_id", 128), ("input", 256), ("input_full", 16384),
   ("result_summary", 512), ("result_text", 32768), ("error.name", 128),
   ("error.message", 1024), ("error.stack", 8192), ("redaction.rule", 64),
   ("artifacts.kind", 64), ("artifacts.reason", 64)]

/-- `_FIELD_LIMITS[k]` (every looked-up key is present). -/
def fieldLimit (k : String) : Nat :=
  ((FIELD_LIMITS.find? (fun e => e.1 == k)).map (fun e => e.2)).getD 0

/-- `_REDACTION_RULE_LIMIT` (agent.py 54). -/
def REDACTION_RULE_LIMIT : Nat := 16

/-- `_ARTIFACT_OMITTED_LIMIT` (agent.py 55). -/
def ARTIFACT_OMITTED_LIMIT : Nat := 16

/-- `_clamp_string_list(values, max_items, max_item_bytes)` (agent.py 272-277). -/
def clampStringList (values : List Json) (maxItems maxItemBytes : Nat) : List String :=
  (values.take maxItems).map (fun v => (truncateToBytes (pyStr v) maxItemBytes).1)

/-- The default redaction block `{"mode": "stream", "applied": False,
"rules": []}` (agent.py 340). -/
def defaultRedaction : Json :=
  .obj [("mode", .str "stream"), ("applied", .bool false), ("rules", .arr [])]

/-- One `payload.get(key) is not None`-guarded per-field clamp
(agent.py 370-394): truncate to `limit` bytes, optionally set a
`*_truncated` flag, accumulate the event-truncated bit. -/
def limitField (p : PyDict) (key : String) (limit : Nat) (flagKey : Option String)
    (et : Bool) : PyDict × Bool :=
  if isNotNone (objGet p key) then
    let r := truncateToBytes (pyStr ((objGet p key).getD .null)) limit
    let p1 := objSet p key (.str r.1)
    let p2 :=
      match flagKey with
      | some fk => if r.2 then objSet p1 fk (.bool true) else p1
      | none => p1
    (p2, et || r.2)
  else (p, et)

/-- The `error` block of the field stage (agent.py 349-368): clamp stack
(with its own flag), name and message when the error value is a dict. -/
def errorStage (p : PyDict) (et : Bool) : PyDict × Bool :=
  match objGet p "error" with
  | some (.obj e0) =>
    let step1 :=
      if isNotNone (objGet e0 "stack") then
        let r := truncateToBytes (pyStr ((objGet e0 "stack").getD .null)) (fieldLimit "error.stack")
        let e1 := objSet e0 "stack" (.str r.1)
        (if r.2 then objSet e1 "stack_truncated" (.bool true) else e1, r.2)
      else (e0, false)
    let step2 :=
      if isNotNone (objGet step1.1 "name") then
        let r := truncateToBytes (pyStr ((objGet step1.1 "name").getD .null)) (fieldLimit "error.name")
        (objSet step1.1 "name" (.str r.1), r.2)
      else (step1.1, false)
    let step3 :=
      if isNotNone (objGet step2.1 "message") then
        let r := truncateToBytes (pyStr ((objGet step2.1 "message").getD .null)) (fieldLimit "error.message")
        (objSet step2.1 "message" (.str r.1), r.2)
      else (step2.1, false)
    (objSet p "error" (.obj step3.1), et || step1.2 || step2.2 || step3.2)
  | _ => (p, et)

/-- One artifact-omission entry of the cleanup loop (agent.py 402-419):
non-dict entries are skipped, kept entries are rebuilt with clamped kind
and reason and an integer-or-null size. -/
def cleanOmittedItem (item : Json) : Option (PyDict × Bool) :=
  match item with
  | .obj io =>
    let kind := truncateToBytes (pyStr ((objGet io "kind").getD (.str "unknown"))) (fieldLimit "artifacts.kind")
    let reason := truncateToBytes (pyStr ((objGet io "reason").getD (.str "binary_not_streamed"))) (fieldLimit "artifacts.reason")
    let sz : Json := match objGet io "size_bytes" with | some (.num n) => .num n | _ => .null
    some ([("kind", .str kind.1), ("size_bytes", sz), ("reason", .str reason.1)],
          kind.2 || reason.2)
  | _ => none

/-- The `artifacts` block of the field stage (agent.py 396-422). -/
def artifactsStage (p : PyDict) (et : Bool) : PyDict × Bool :=
  match objGet p "artifacts" with
  | some (.obj a0) =>
    let rawOmitted : List Json :=
      match objGet a0 "omitted" with | some (.arr l) => l | _ => []
    let cleaned := (rawOmitted.take ARTIFACT_OMITTED_LIMIT).filterMap cleanOmittedItem
    let a1 := objSet a0 "omitted" (.arr (cleaned.map (fun x => .obj x.1)))
    let a2 := objSet a1 "has_binary" (.bool (pyTruthy ((objGet a1 "has_binary").getD .null)))
    (objSet p "artifacts" (.obj a2), et || cleaned.any (fun x => x.2))
  | _ => (p, et)

/-- The per-field stage of `_finalize_trace_payload` (agent.py 332-424):
everything up to and including installing the `size` block with
`event_bytes = 0`.  Returns `none` exactly where the source raises: a
truthy non-dict `redaction` value flows into an item assignment. -/
def finalizeFields (p0 : PyDict) : Option PyDict :=
  let tool := truncateToBytes (pyStr ((objGet p0 "tool").getD (.str ""))) (fieldLimit "tool")
  let p1 := objSet p0 "tool" (.str tool.1)
  let tid := truncateToBytes (pyStr ((objGet p1 "tool_use_id").getD (.str ""))) (fieldLimit "tool_use_id")
  let p2 := objSet p1 "tool_use_id" (.str tid.1)
  let et0 := tool.2 || tid.2
  let redactionRaw :=
    match objGet p2 "redaction" with
    | some r => if pyTruthy r then r else defaultRedaction
    | none => defaultRedaction
  let rules : List Json :=
    match redactionRaw with
    | .obj re => (match objGet re "rules" with | some (.arr l) => l | _ => [])
    | _ => []
  match redactionRaw with
  | .obj re =>
    let re1 := objSet re "rules"
      (.arr ((clampStringList rules REDACTION_RULE_LIMIT (fieldLimit "redaction.rule")).map .str))
    let re2 := objSet re1 "mode" (.str "stream")
    let re3 := objSet re2 "applied" (.bool (pyTruthy ((objGet re2 "applied").getD .null)))
    let p3 := objSet p2 "redaction" (.obj re3)
    let s4 := errorStage p3 et0
    let s5 := limitField s4.1 "result_text" (fieldLimit "result_text") (some "result_truncated") s4.2
    let s6 := limitField s5.1 "input_full" (fieldLimit "input_full") (some "input_truncated") s5.2
    let s7 := limitField s6.1 "result_summary" (fieldLimit "result_summary") none s6.2
    let s8 := limitField s7.1 "input" (fieldLimit "input") none s7.2
    let s9 := artifactsStage s8.1 s8.2
    some (objSet s9.1 "size" (.obj [("event_bytes", .num 0), ("event_truncated", .bool s9.2)]))
  | _ => none

/-- `event_size()` (agent.py 426-427): the UTF-8 size of the serialized
payload. -/
def eventSize (p : PyDict) : Nat := utf8Len (jsonDumps (.obj p))

/-- `payload["size"]["event_bytes"]` (`-1` in the unreachable case where the
size block is missing or malformed, so the loop never breaks spuriously). -/
def getRecorded (p : PyDict) : Int :=
  match objGet p "size" with
  | some (.obj s) => (match objGet s "event_bytes" with | some (.num n) => n | _ => -1)
  | _ => -1

/-- `payload["size"]["event_bytes"] = n` (in-place nested update;
the unreachable malformed case leaves the payload unchanged). -/
def setRecorded (p : PyDict) (n : Int) : PyDict :=
  match objGet p "size" with
  | some (.obj s) => objSet p "size" (.obj (objSet s "event_bytes" (.num n)))
  | _ => p

/-- The size fixed-point loop (agent.py 429-433, reused at 443-447): up to
8 iterations of measure, compare with the stored size, break on equality,
store otherwise. -/
def sizeFix : Nat → PyDict → PyDict
  | 0, p => p
  | n + 1, p =>
    let sNow := eventSize p
    if getRecorded p = (sNow : Int) then p else sizeFix n (setRecorded p sNow)

/-- `payload["size"]["event_truncated"] = True` (agent.py 436). -/
def markEventTruncated (p : PyDict) : PyDict :=
  match objGet p "size" with
  | some (.obj s) => objSet p "size" (.obj (objSet s "event_truncated" (.bool true)))
  | _ => p

/-- agent.py 437-439: when over the ceiling, null out `result_text` (if not
already `None`) and flag it. -/
def dropResultText (p : PyDict) : PyDict :=
  if isNotNone (objGet p "result_text") then
    objSet (objSet p "result_text" .null) "result_truncated" (.bool true)
  else p

/-- agent.py 440-442: if `input_full` is present and the remeasured event is
still over the ceiling, null it out and flag it. -/
def dropInputFull (p : PyDict) : PyDict :=
  if isNotNone (objGet p "input_full") && decide (MAX_EVENT_BYTES < eventSize p) then
    objSet (objSet p "input_full" .null) "input_truncated" (.bool true)
  else p

/-- agent.py 435-447: the over-ceiling branch — flag the event, drop
`result_text` first, then `input_full` if still over, then re-run the size
loop. -/
def dropStage (p : PyDict) : PyDict :=
  if (MAX_EVENT_BYTES : Int) < getRecorded p then
    sizeFix 8 (dropInputFull (dropResultText (markEventTruncated p)))
  else p

/-- `_finalize_trace_payload(payload)` (agent.py 331-449). -/
def finalizeTracePayload (p : PyDict) : Option PyDict :=
  (finalizeFields p).map (fun q => dropStage (sizeFix 8 q))

/-- `payload["size"]["event_truncated"]` read back from a finalized
payload. -/
def sizeTrunc (p : PyDict) : Option Json :=
  match objGet p "size" with
  | some (.obj s) => objGet s "event_truncated"
  | _ => none

/-- A small trace payload carrying a result text and a full input, for
exercising the within-ceiling branch of the finalizer on concrete data. -/
def c4small : PyDict := [("result_text", Json.str "hello"), ("input_full", Json.str "in")]

/-- The field-stage output of the finalizer on `c4small`. -/
def c4smallQ : PyDict := (finalizeFields c4small).getD []

/-- The finalizer's output on `c4small`. -/
def c4smallOut : PyDict := (finalizeTracePayload c4small).getD []

/-- 12000 NUL characters: `json.dumps` escapes each one to the six bytes
`\u0000`. -/
def c4blob : String := String.mk (List.replicate 12000 (Char.ofNat 0))

/-- A trace payload whose only field is a large string under a key the
finalizer neither clamps nor drops. -/
def bigPayload : PyDict := [("blob", Json.str c4blob)]

/-- The field-stage output of the finalizer on `[("blob", str s)]`: the
blob passes through untouched, default tool/tool_use_id/redaction/size
blocks are installed. -/
def blobFields (s : String) : PyDict :=
  [("blob", Json.str s), ("tool", Json.str ""), ("tool_use_id", Json.str ""),
   ("redaction", Json.obj [("mode", Json.str "stream"), ("applied", Json.bool false),
                           ("rules", Json.arr [])]),
   ("size", Json.obj [("event_bytes", Json.num 0), ("event_truncated", Json.bool false)])]

-- ── ConversationSession.store_render and SessionStore (session.py) ───────────

/-- Image bytes, abstracted. -/
abbrev Bytes := List Nat

/-- The render-relevant state of `ConversationSession` (session.py 21-41):
the render map `render_id → bytes` in insertion order, plus the current
render id. -/
structure RSession where
  renders : List (String × Bytes)
  currentRenderId : Option String
deriving DecidableEq

/-- Python dict assignment `d[k] = v` on a bytes-valued dict: replace in
place if present, append otherwise. -/
def rendersSet (d : List (String × Bytes)) (k : String) (v : Bytes) :
    List (String × Bytes) :=
  if d.any (fun e => e.1 == k) then
    d.map (fun e => if e.1 == k then (e.1, v) else e)
  else d ++ [(k, v)]

/-- `ConversationSession.store_render(image_bytes)` (session.py 36-41). -/
def store_render (s : RSession) (b : Bytes) : RSession × String :=
  let renderId := "v" ++ natToDecimal (s.renders.length + 1)
  ({ renders := rendersSet s.renders renderId b, currentRenderId := some renderId },
   renderId)

/-- The render-relevant durable state of one session in `SessionStore`: the
`renders` table rows `(render_id, render_index)` in insertion order, the
per-render image files keyed by render id (each file path is
`renders/<render_id>.png`), and the stored current render id. -/
structure RStore where
  rows : List (String × Nat)
  files : List (String × Bytes)
  current : Option String
deriving DecidableEq

/-- `SessionStore._render_index(render_id)` (session.py 109-113):
`some` iff the id is `"v"` followed by a nonempty digit string. -/
def renderIndex (renderId : String) : Option Nat :=
  match renderId.data with
  | 'v' :: rest => decimalToNat? rest
  | _ => none

/-- `SessionStore.update` restricted to its render effect
(session.py 188-248): for each in-memory render whose id is not yet
indexed (snapshot taken before the loop) and whose id parses to an index,
write the image file, then insert the row; finally store the session
metadata (current render id).  This is the per-render body of the loop. -/
def updateEntry (existing : List String) (acc : RStore) (r : String × Bytes) : RStore :=
  if existing.contains r.1 then acc
  else
    match renderIndex r.1 with
    | none => acc
    | some idx =>
      { acc with files := rendersSet acc.files r.1 r.2, rows := acc.rows ++ [(r.1, idx)] }

/-- `SessionStore.update` restricted to its render effect, assembled from
`updateEntry`. -/
def updateStore (st : RStore) (s : RSession) : RStore :=
  let existing := st.rows.map (fun r => r.1)
  let st1 := s.renders.foldl (updateEntry existing) st
  { st1 with current := s.currentRenderId }

/-- Ascending insertion by render index (`ORDER BY render_index ASC`; the
index column is unique per session). -/
def insertByIndex (x : String × Nat) : List (String × Nat) → List (String × Nat)
  | [] => [x]
  | y :: ys => if x.2 < y.2 then x :: y :: ys else y :: insertByIndex x ys

/-- Sort the render rows by index. -/
def sortByIndex (l : List (String × Nat)) : List (String × Nat) :=
  l.foldr insertByIndex []

/-- `SessionStore.get` restricted to its render effect (session.py 140-186):
rows ordered by render index; each render is loaded only if its image file
exists. -/
def loadSession (st : RStore) : RSession :=
  { renders := (sortByIndex st.rows).filterMap
      (fun r => (st.files.find? (fun f => f.1 == r.1)).map (fun f => (r.1, f.2)))
    currentRenderId := st.current }

/-- The session-lifetime operations the render-id claim quantifies over:
produce a render (`store_render`), persist (`SessionStore.update`), reload
(`SessionStore.get`, replacing the in-memory session). -/
inductive SessionOp where
  | render (b : Bytes)
  | persist
  | reload

/-- Run the operations from a state, collecting every id `store_render`
returns, in order. -/
def runSessionOps : RSession × RStore → List SessionOp → (RSession × RStore) × List String
  | st, [] => (st, [])
  | (s, store), SessionOp.render b :: rest =>
    let r := store_render s b
    let r2 := runSessionOps (r.1, store) rest
    (r2.1, r.2 :: r2.2)
  | (s, store), SessionOp.persist :: rest => runSessionOps (s, updateStore store s) rest
  | (_, store), SessionOp.reload :: rest => runSessionOps (loadSession store, store) rest

/-- A brand-new session over an empty durable store. -/
def freshSessionState : RSession × RStore :=
  ({ renders := [], currentRenderId := none },
   { rows := [], files := [], current := none })

/-- Reloads read durably saved state: every `reload` happens only when all
renders produced so far have been persisted (the server persists the
session after every mutation — server.py 113-125). -/
def wellSaved : Bool → List SessionOp → Bool
  | _, [] => true
  | _, SessionOp.render _ :: rest => wellSaved true rest
  | _, SessionOp.persist :: rest => wellSaved false rest
  | dirty, SessionOp.reload :: rest => !dirty && wellSaved dirty rest

/-- The `i`-th render-artifact id, counting from 0: `"v1"`, `"v2"`, …  -/
def keyOf (i : Nat) : String := "v" ++ natToDecimal (i + 1)

/-- A render map holding the given byte strings under consecutive ids
starting at `keyOf i`. -/
def withKeys : Nat → List Bytes → List (String × Bytes)
  | _, [] => []
  | i, b :: bs => (keyOf i, b) :: withKeys (i + 1) bs

/-- `n` render rows with consecutive ids starting at `keyOf i` (the row
index of `keyOf i` is `i + 1`). -/
def rowsFrom : Nat → Nat → List (String × Nat)
  | _, 0 => []
  | i, n + 1 => (keyOf i, i + 1) :: rowsFrom (i + 1) n

/-- The number of `store_render` calls an operation sequence makes. -/
def countRenders : List SessionOp → Nat
  | [] => 0
  | SessionOp.render _ :: rest => countRenders rest + 1
  | _ :: rest => countRenders rest

/-- A concrete session history: render, persist, reload from storage,
render again. -/
def c5ops : List SessionOp :=
  [SessionOp.render [1], SessionOp.persist, SessionOp.reload, SessionOp.render [2, 3]]

-- ── The per-round-trip trace sequencing of _stream_anthropic/_stream_openai ──

/-- The phase of a trace event. -/
inductive TracePhase where
  | start
  | result
deriving DecidableEq

/-- The ordering-relevant projection of one trace event of the streaming
loop: phase, tool_use_id, and the per-round `trace_seq` value it carried. -/
structure TraceEv where
  phase : TracePhase
  toolUseId : String
  seq : Nat
deriving DecidableEq

/-- `block.id or f"tool_use_{_turn}_{len(tool_results) + 1}"`
(agent.py 790): the fallback id used when the provider id is falsy
(modelled as the empty string). -/
def resolveToolUseId (turn : Nat) (nResults : Nat) (blockId : String) : String :=
  if blockId = "" then
    "tool_use_" ++ natToDecimal turn ++ "_" ++ natToDecimal (nResults + 1)
  else blockId

/-- The tool-dispatch loop of one provider round-trip (agent.py 786-862):
each tool_use block increments `trace_seq` once for its start event and
once for its result event. -/
def roundEventsGo (turn : Nat) : Nat → Nat → List String → List TraceEv
  | _, _, [] => []
  | seq, nResults, blockId :: rest =>
    let tid := resolveToolUseId turn nResults blockId
    { phase := .start, toolUseId := tid, seq := seq + 1 } ::
    { phase := .result, toolUseId := tid, seq := seq + 2 } ::
    roundEventsGo turn (seq + 2) (nResults + 1) rest

/-- Trace events of the round-trip numbered `turn`, for the provider's
tool_use block ids in order; `trace_seq` starts at 0 (agent.py 749). -/
def roundEvents (turn : Nat) (blockIds : List String) : List TraceEv :=
  roundEventsGo turn 0 0 blockIds

/-- Trace events of a whole turn (one user message): the provider
round-trips in order, with `trace_seq` reset to 0 at the top of each
round-trip (agent.py 748-749). -/
def streamTraceEvents : Nat → List (List String) → List TraceEv
  | _, [] => []
  | turn, r :: rs => roundEvents turn r ++ streamTraceEvents (turn + 1) rs

-- ── Terminal outcomes of the agent loops (agent.py 748-866, 1042-1123) ───────

/-- Provider stop reasons as the loops branch on them. -/
inductive StopReason where
  | endTurn
  | toolUse
  | other (s : String)

/-- The loop of `_run_anthropic` (agent.py 1059-1123) projected onto its
terminal outcome: `provider t` is the stop_reason of the `t`-th
`messages.create` call; the result is the returned `(status, message)`
(the final text of the complete case is not modelled) and the number of
provider calls made. -/
def runAnthropicGo (provider : Nat → StopReason) (maxTurns : Nat) :
    Nat → Nat → (String × String) × Nat
  | 0, calls =>
    (("max_turns", "Reached " ++ natToDecimal maxTurns ++ " turns without completing."), calls)
  | remaining + 1, calls =>
    match provider calls with
    | .endTurn => (("complete", ""), calls + 1)
    | .toolUse => runAnthropicGo provider maxTurns remaining (calls + 1)
    | .other s => (("error", "Unexpected stop_reason: " ++ s), calls + 1)

/-- `_run_anthropic` (agent.py 1042-1123), outcome projection. -/
def runAnthropic (provider : Nat → StopReason) (maxTurns : Nat) : (String × String) × Nat :=
  runAnthropicGo provider maxTurns maxTurns 0

/-- The terminal SSE event of `_stream_anthropic` (agent.py 769-782 and
866): event type and message of the last yield before the generator
returns. -/
def streamTerminalGo (provider : Nat → StopReason) (maxTurns : Nat) :
    Nat → Nat → String × String
  | 0, _ => ("error", "Reached " ++ natToDecimal maxTurns ++ " turns without completing.")
  | remaining + 1, calls =>
    match provider calls with
    | .endTurn => ("turn_complete", "")
    | .toolUse => streamTerminalGo provider maxTurns remaining (calls + 1)
    | .other s => ("error", "Unexpected stop_reason: " ++ s)

/-- `_stream_anthropic` (agent.py 740-866), terminal-event projection. -/
def streamTerminal (provider : Nat → StopReason) (maxTurns : Nat) : String × String :=
  streamTerminalGo provider maxTurns maxTurns 0

-- ── tools/implementations.py ─────────────────────────────────────────────────

/-- One character of `re.sub(r"[^\w\-_. ]", "_", filename)`
(implementations.py 129): characters outside word chars, hyphen,
underscore, dot and space become an underscore. -/
def sanitizeChar (c : Char) : Char :=
  if pyIsWord c || c = '-' || c = '_' || c = '.' || c = ' ' then c else '_'

/-- `_save`'s filename sanitization (implementations.py 128-131):
`re.sub(r"[^\w\-_. ]", "_", filename)`, then append `".png"` unless the
lower-cased name already ends in `.png`, `.svg` or `.pdf`. -/
def sanitizeFilename (filename : String) : String :=
  let safe := String.mk (filename.data.map sanitizeChar)
  if pyEndsWith (asciiLower safe) ".png" || pyEndsWith (asciiLower safe) ".svg" ||
     pyEndsWith (asciiLower safe) ".pdf" then safe
  else safe ++ ".png"

/-- Python exceptions that can escape the embedded tool paths. -/
inductive PyErr where
  | keyError (key : String)
  | exc (name msg : String)
deriving DecidableEq

/-- The fields of `RenderResult` (backends/base.py) that `_render` reads.
The backends always construct it instead of raising (they catch
missing-binary and timeout errors themselves). -/
structure RenderRes where
  success : Bool
  imageBytes : Bytes
  error : String
  stderr : String

/-- The external effects `dispatch_tool` calls out to, as oracles: the
three render backends (subprocess launchers), the classification LLM call,
and the visual-validation LLM call (with its fixed JSON serialisation
folded in).  `Except` results model calls that may raise. -/
structure ToolOracles where
  renderTikz : String → RenderRes
  renderMatplotlib : String → RenderRes
  renderGraphviz : String → String → RenderRes
  classify : String → Except PyErr String
  validate : Bytes → String → Except PyErr String

/-- A tool result: a plain string, or a list of content blocks
(image + text). -/
inductive ToolResult where
  | text (s : String)
  | blocks (bs : List Json)
deriving DecidableEq

/-- `base64.standard_b64encode` alphabet. -/
def base64Table : List Char :=
  "ABCDEFGHIJKLMNOPQRSTUVWXYZabcdefghijklmnopqrstuvwxyz0123456789+/".data

/-- One base64 alphabet character. -/
def base64Char (n : Nat) : Char := base64Table.getD n '='

/-- `base64.standard_b64encode` over byte values. -/
def base64Encode : Bytes → List Char
  | [] => []
  | [b1] => [base64Char (b1 / 4), base64Char (b1 % 4 * 16), '=', '=']
  | [b1, b2] =>
    [base64Char (b1 / 4), base64Char (b1 % 4 * 16 + b2 / 16), base64Char (b2 % 16 * 4), '=']
  | b1 :: b2 :: b3 :: rest =>
    base64Char (b1 / 4) :: base64Char (b1 % 4 * 16 + b2 / 16) ::
    base64Char (b2 % 16 * 4 + b3 / 64) :: base64Char (b3 % 64) :: base64Encode rest

/-- The failure message of `_render` (implementations.py 82-87):
`f"Render failed ({backend}).\nError: {result.error}\nStderr:\n{result.stderr or '(none)'}"`. -/
def renderFailureText (backend error stderr : String) : String :=
  "Render failed (" ++ backend ++ ").\x0aError: " ++ error ++ "\x0aStderr:\x0a" ++
  (if stderr = "" then "(none)" else stderr)

/-- `_render(backend, source, session, **kwargs)`
(implementations.py 67-104): dispatch to the backend, return either the
failure text (embedding backend name, error and stderr, with `"(none)"`
for an empty stderr) or store the render on the session and return the
image + confirmation blocks. -/
def renderTool (oracles : ToolOracles) (backend : String) (source : String) (engine : String)
    (s : RSession) : ToolResult × RSession :=
  let res : Option RenderRes :=
    if backend = "tikz" then some (oracles.renderTikz source)
    else if backend = "matplotlib" then some (oracles.renderMatplotlib source)
    else if backend = "graphviz" then some (oracles.renderGraphviz source engine)
    else none
  match res with
  | none => (.text ("Unknown backend: " ++ backend), s)
  | some r =>
    if !r.success then
      (.text (renderFailureText backend r.error r.stderr), s)
    else
      let sr := store_render s r.imageBytes
      (.blocks
        [.obj [("type", .str "image"),
               ("source", .obj [("type", .str "base64"), ("media_type", .str "image/png"),
                                ("data", .str (String.mk (base64Encode r.imageBytes)))])],
         .obj [("type", .str "text"),
               ("text", .str ("Rendered successfully using " ++ backend ++
                              ". Examine the image above carefully."))]],
       sr.1)

/-- `inputs[k]`: raises `KeyError` when the key is missing. -/
def getReq (inputs : List (String × String)) (k : String) : Except PyErr String :=
  match inputs.find? (fun e => e.1 == k) with
  | some e => .ok e.2
  | none => .error (.keyError k)

/-- `inputs.get(k, default)`. -/
def getOpt (inputs : List (String × String)) (k : String) (dflt : String) : String :=
  ((inputs.find? (fun e => e.1 == k)).map (fun e => e.2)).getD dflt

/-- `_validate` (implementations.py 107-121); the `session.renders[...]`
subscript raises on a missing id. -/
def validateTool (oracles : ToolOracles) (description : String) (s : RSession) :
    Except PyErr String :=
  match s.currentRenderId with
  | none => .ok "No rendered image available. Render a diagram first."
  | some rid =>
    match s.renders.find? (fun e => e.1 == rid) with
    | none => .error (.keyError rid)
    | some e => oracles.validate e.2 description

/-- `config.OUTPUT_DIR` as a path string. -/
def OUTPUT_DIR_STR : String := "output"

/-- `_save` (implementations.py 124-136); the file write is not modelled,
only the path embedded in the returned message. -/
def saveTool (filename : String) (s : RSession) : Except PyErr String :=
  match s.currentRenderId with
  | none => .ok "No rendered image available to save."
  | some rid =>
    match s.renders.find? (fun e => e.1 == rid) with
    | none => .error (.keyError rid)
    | some _ => .ok ("Saved to " ++ OUTPUT_DIR_STR ++ "/" ++ sanitizeFilename filename)

/-- `dispatch_tool(name, inputs, session)` (implementations.py 32-52).
Tool inputs are string-valued dicts (the shapes the registered tools
declare); a missing required key raises `KeyError` exactly as the
subscript in the source does. -/
def dispatch_tool (oracles : ToolOracles) (name : String)
    (inputs : List (String × String)) (s : RSession) :
    Except PyErr (ToolResult × RSession) :=
  if name = "classify_diagram" then do
    let d ← getReq inputs "description"
    let r ← oracles.classify d
    pure (.text r, s)
  else if name = "render_tikz" then do
    let src ← getReq inputs "source"
    pure (renderTool oracles "tikz" src "dot" s)
  else if name = "render_matplotlib" then do
    let src ← getReq inputs "source"
    pure (renderTool oracles "matplotlib" src "dot" s)
  else if name = "render_graphviz" then do
    let src ← getReq inputs "source"
    pure (renderTool oracles "graphviz" src (getOpt inputs "engine" "dot") s)
  else if name = "validate_visual" then do
    let d ← getReq inputs "description"
    let r ← validateTool oracles d s
    pure (.text r, s)
  else if name = "save_diagram" then do
    let f ← getReq inputs "filename"
    let r ← saveTool f s
    pure (.text r, s)
  else pure (.text ("Unknown tool: " ++ name), s)

/-- Decidable equality for `Except` results (not provided by core). -/
def exceptDecEq {e a : Type} [DecidableEq e] [DecidableEq a] : DecidableEq (Except e a)
  | .error e1, .error e2 =>
    match decEq e1 e2 with
    | isTrue h => isTrue (by rw [h])
    | isFalse h => isFalse (fun hh => h (by cases hh; rfl))
  | .ok a1, .ok a2 =>
    match decEq a1 a2 with
    | isTrue h => isTrue (by rw [h])
    | isFalse h => isFalse (fun hh => h (by cases hh; rfl))
  | .error _, .ok _ => isFalse nofun
  | .ok _, .error _ => isFalse nofun

instance {e a : Type} [DecidableEq e] [DecidableEq a] : DecidableEq (Except e a) := exceptDecEq

/-- The startup environment-secret scan for a process whose environment is
`OPENAI_API_KEY=sk-abcdefghij0123456789`. -/
def envC8 : List String := buildEnvSecretValues [("OPENAI_API_KEY", "sk-abcdefghij0123456789")]

/-- The tool_use_id each block resolves to, in block order, starting at
`tool_results` length `n`. -/
def resolvedIds (turn : Nat) : Nat → List String → List String
  | _, [] => []
  | n, bid :: rest => resolveToolUseId turn n bid :: resolvedIds turn (n + 1) rest

/-- The six tool names `dispatch_tool` recognises. -/
def knownTools : List String :=
  ["classify_diagram", "render_tikz", "render_matplotlib", "render_graphviz",
   "validate_visual", "save_diagram"]

/-- Fixed oracles for concrete dispatch evaluations: every backend fails
with error `"E"` and empty stderr; LLM calls return fixed strings. -/
def stubOracles : ToolOracles where
  renderTikz := fun _ => { success := false, imageBytes := [], error := "E", stderr := "" }
  renderMatplotlib := fun _ => { success := false, imageBytes := [], error := "E", stderr := "" }
  renderGraphviz := fun _ _ => { success := false, imageBytes := [], error := "E", stderr := "" }
  classify := fun _ => .ok "c"
  validate := fun _ _ => .ok "v"

-- ═════════════════════════════ Basic lemmas ══════════════════════════════════

theorem stringMk_data (s : String) : String.mk s.data = s := rfl

theorem utf8LenL_append (a b : List Char) :
    utf8LenL (a ++ b) = utf8LenL a + utf8LenL b := by
  induction a with
  | nil => simp [utf8LenL]
  | cons c cs ih =>
    show c.utf8Size + utf8LenL (cs ++ b) = c.utf8Size + utf8LenL cs + utf8LenL b
    rw [ih]; omega

theorem utf8Len_append (a b : String) : utf8Len (a ++ b) = utf8Len a + utf8Len b := by
  simp [utf8Len, String.data_append, utf8LenL_append]

theorem utf8LenL_eq_length_of_one (l : List Char) (h : ∀ c ∈ l, c.utf8Size = 1) :
    utf8LenL l = l.length := by
  induction l with
  | nil => rfl
  | cons c cs ih =>
    simp only [utf8LenL, List.length_cons, h c (by simp)]
    rw [ih (fun x hx => h x (by simp [hx]))]
    omega

theorem utf8LenL_take_le_of_one (l : List Char) (h : ∀ c ∈ l, c.utf8Size = 1) (n : Nat) :
    utf8LenL (l.take n) ≤ n := by
  induction l generalizing n with
  | nil => simp [utf8LenL]
  | cons c cs ih =>
    cases n with
    | zero => simp [utf8LenL]
    | succ m =>
      simp only [List.take_succ_cons, utf8LenL, h c (by simp)]
      have := ih (fun x hx => h x (by simp [hx])) m
      omega

theorem truncSuffix_ascii : ∀ c ∈ TRUNCATION_SUFFIX.data, c.utf8Size = 1 := by decide

theorem truncSuffix_utf8Len : utf8Len TRUNCATION_SUFFIX = 14 := by decide

theorem truncTake_le (budget : Nat) (l : List Char) :
    ∀ used, used + utf8LenL (truncTake budget used l) ≤ budget ∨
      truncTake budget used l = [] := by
  induction l with
  | nil => intro used; right; rfl
  | cons c cs ih =>
    intro used
    by_cases h : used + c.utf8Size > budget
    · right; simp [truncTake, h]
    · left
      simp only [truncTake, h, if_false, utf8LenL]
      rcases ih (used + c.utf8Size) with h2 | h2
      · omega
      · rw [h2]; simp only [utf8LenL]; omega

theorem truncTake_prefix (budget : Nat) (l : List Char) :
    ∀ used, truncTake budget used l <+: l := by
  induction l with
  | nil => intro used; simp [truncTake]
  | cons c cs ih =>
    intro used
    by_cases h : used + c.utf8Size > budget
    · simp [truncTake, h]
    · simp only [truncTake, h, if_false]
      exact List.cons_prefix_cons.mpr ⟨rfl, ih (used + c.utf8Size)⟩

-- ═════════════════════ C3: _truncate_to_bytes behaviour ══════════════════════

/-- C3 (amended): for every string and byte ceiling, `_truncate_to_bytes`
returns a string whose UTF-8 length is at most the ceiling; the truncated
flag is reported exactly when the input exceeds the ceiling; the output is
a whole-character prefix of the input followed by the truncation marker
whenever the ceiling exceeds the marker's size — but when the ceiling is at
most the marker's size, the output is the marker itself cut to the
ceiling (so the marker is not appended in full, contrary to the claim as
stated). -/
theorem truncate_to_bytes_spec (v : String) (n : Nat) :
    utf8Len (truncateToBytes v n).1 ≤ n ∧
    ((truncateToBytes v n).2 = true ↔ n < utf8Len v) ∧
    (n < utf8Len v → 14 < n →
      ∃ pre, pre <+: v.data ∧
        (truncateToBytes v n).1.data = pre ++ TRUNCATION_SUFFIX.data) ∧
    (n < utf8Len v → n ≤ 14 →
      (truncateToBytes v n).1.data = TRUNCATION_SUFFIX.data.take n) := by
  by_cases h1 : utf8Len v ≤ n
  · have e : truncateToBytes v n = (v, false) := by
      unfold truncateToBytes; rw [if_pos h1]
    rw [e]
    refine ⟨h1, by simp; omega, fun h _ => absurd h (by omega), fun h _ => absurd h (by omega)⟩
  · by_cases h2 : n ≤ 14
    · have e : truncateToBytes v n = (String.mk (TRUNCATION_SUFFIX.data.take n), true) := by
        unfold truncateToBytes
        rw [if_neg h1, if_pos (by rw [truncSuffix_utf8Len]; exact h2)]
      rw [e]
      refine ⟨utf8LenL_take_le_of_one _ truncSuffix_ascii n, by simp; omega,
        fun _ h => by omega, fun _ _ => rfl⟩
    · have e : truncateToBytes v n =
          (String.mk (truncTake (n - 14) 0 v.data) ++ TRUNCATION_SUFFIX, true) := by
        unfold truncateToBytes
        rw [if_neg h1, if_neg (by rw [truncSuffix_utf8Len]; exact h2), truncSuffix_utf8Len]
      rw [e]
      refine ⟨?_, by simp; omega, fun _ _ => ?_, fun _ h => by omega⟩
      · rw [utf8Len_append, truncSuffix_utf8Len]
        show utf8LenL (truncTake (n - 14) 0 v.data) + 14 ≤ n
        rcases truncTake_le (n - 14) v.data 0 with h3 | h3
        · omega
        · rw [h3]; simp only [utf8LenL]; omega
      · exact ⟨truncTake (n - 14) 0 v.data, truncTake_prefix _ _ _, String.data_append _ _⟩

/-- Witness for `truncate_to_bytes_spec` at a concrete truncating call. -/
theorem truncate_to_bytes_spec_witness :
    utf8Len (truncateToBytes "aaaaaaaaaaaaaaaaaaaa" 18).1 ≤ 18 ∧
    (truncateToBytes "aaaaaaaaaaaaaaaaaaaa" 18).2 = true ∧
    ∃ pre, pre <+: "aaaaaaaaaaaaaaaaaaaa".data ∧
      (truncateToBytes "aaaaaaaaaaaaaaaaaaaa" 18).1.data = pre ++ TRUNCATION_SUFFIX.data := by
  have h := truncate_to_bytes_spec "aaaaaaaaaaaaaaaaaaaa" 18
  exact ⟨h.1, h.2.1.mpr (by decide), h.2.2.1 (by decide) (by decide)⟩

/-- C3 (counterexample): at ceiling 4 bytes the input is truncated but the
truncation marker is not appended — the result is a cut-off marker
fragment, which cannot be split as anything followed by the marker. -/
theorem truncate_to_bytes_marker_not_appended :
    truncateToBytes "aaaaaaaaaaaaaaaa" 4 = ("...[", true) ∧
    ¬ ∃ pre, ("...[" : String).data = pre ++ TRUNCATION_SUFFIX.data := by
  refine ⟨by decide, ?_⟩
  rintro ⟨pre, hp⟩
  have := congrArg List.length hp
  simp [TRUNCATION_SUFFIX] at this

-- ═════════════════════ C10: _save writes only inside the output dir ══════════

theorem stringMk_append (x y : List Char) : String.mk x ++ String.mk y = String.mk (x ++ y) := rfl

theorem asciiLower_append (a b : String) :
    asciiLower (a ++ b) = asciiLower a ++ asciiLower b := by
  simp only [asciiLower, String.data_append, List.map_append]
  rw [stringMk_append]

theorem sanitizeChar_safe (c : Char) : sanitizeChar c ≠ '/' ∧ sanitizeChar c ≠ '\\' := by
  unfold sanitizeChar
  by_cases h : (pyIsWord c || c = '-' || c = '_' || c = '.' || c = ' ') = true
  · rw [if_pos h]
    constructor
    · rintro rfl; revert h; decide
    · rintro rfl; revert h; decide
  · rw [if_neg h]; exact ⟨by decide, by decide⟩

theorem sanitized_ext_len (s : String)
    (h : (pyEndsWith (asciiLower s) ".png" || pyEndsWith (asciiLower s) ".svg" ||
          pyEndsWith (asciiLower s) ".pdf") = true) :
    4 ≤ s.data.length := by
  have key : ∀ sfx : String, pyEndsWith (asciiLower s) sfx = true →
      sfx.data.length ≤ s.data.length := by
    intro sfx hs
    have := (List.isSuffixOf_iff_suffix.mp hs).length_le
    simpa [asciiLower] using this
  simp only [Bool.or_eq_true] at h
  rcases h with (h | h) | h
  · exact le_trans (by decide) (key ".png" h)
  · exact le_trans (by decide) (key ".svg" h)
  · exact le_trans (by decide) (key ".pdf" h)

/-- C10: every filename is confined to a single path component directly in
the output directory: after sanitization the name contains no path
separator, is not empty nor `.` nor `..`, ends (case-insensitively) in one
of the three allowed extensions, and is exactly the character-substituted
name, with `".png"` appended when needed. -/
theorem save_filename_sanitized (filename : String) :
    (∀ c ∈ (sanitizeFilename filename).data, c ≠ '/' ∧ c ≠ '\\') ∧
    (pyEndsWith (asciiLower (sanitizeFilename filename)) ".png" ||
     pyEndsWith (asciiLower (sanitizeFilename filename)) ".svg" ||
     pyEndsWith (asciiLower (sanitizeFilename filename)) ".pdf") = true ∧
    sanitizeFilename filename ≠ "" ∧ sanitizeFilename filename ≠ "." ∧
    sanitizeFilename filename ≠ ".." ∧
    (sanitizeFilename filename = String.mk (filename.data.map sanitizeChar) ∨
     sanitizeFilename filename = String.mk (filename.data.map sanitizeChar) ++ ".png") := by
  have chars : ∀ c ∈ (sanitizeFilename filename).data, c ≠ '/' ∧ c ≠ '\\' := by
    intro c hc
    unfold sanitizeFilename at hc
    by_cases h : (pyEndsWith (asciiLower (String.mk (filename.data.map sanitizeChar))) ".png" ||
        pyEndsWith (asciiLower (String.mk (filename.data.map sanitizeChar))) ".svg" ||
        pyEndsWith (asciiLower (String.mk (filename.data.map sanitizeChar))) ".pdf") = true
    · rw [if_pos h] at hc
      rcases List.mem_map.mp hc with ⟨c0, _, rfl⟩
      exact sanitizeChar_safe c0
    · rw [if_neg h, String.data_append] at hc
      rcases List.mem_append.mp hc with hm | hm
      · rcases List.mem_map.mp hm with ⟨c0, _, rfl⟩
        exact sanitizeChar_safe c0
      · fin_cases hm <;> exact ⟨by decide, by decide⟩
  have ends : (pyEndsWith (asciiLower (sanitizeFilename filename)) ".png" ||
      pyEndsWith (asciiLower (sanitizeFilename filename)) ".svg" ||
      pyEndsWith (asciiLower (sanitizeFilename filename)) ".pdf") = true := by
    unfold sanitizeFilename
    by_cases h : (pyEndsWith (asciiLower (String.mk (filename.data.map sanitizeChar))) ".png" ||
        pyEndsWith (asciiLower (String.mk (filename.data.map sanitizeChar))) ".svg" ||
        pyEndsWith (asciiLower (String.mk (filename.data.map sanitizeChar))) ".pdf") = true
    · rw [if_pos h]; exact h
    · rw [if_neg h]
      have : pyEndsWith (asciiLower (String.mk (filename.data.map sanitizeChar) ++ ".png")) ".png" = true := by
        rw [asciiLower_append]
        apply List.isSuffixOf_iff_suffix.mpr
        show (".png" : String).data <:+ _ ++ (asciiLower ".png").data
        have : (asciiLower ".png").data = (".png" : String).data := by decide
        rw [this]
        exact List.suffix_append _ _
      simp [this]
  have hlen : 4 ≤ (sanitizeFilename filename).data.length := sanitized_ext_len _ ends
  refine ⟨chars, ends, ?_, ?_, ?_, ?_⟩
  · intro he; rw [he] at hlen; exact absurd hlen (by decide)
  · intro he; rw [he] at hlen; exact absurd hlen (by decide)
  · intro he; rw [he] at hlen; exact absurd hlen (by decide)
  · unfold sanitizeFilename
    by_cases h : (pyEndsWith (asciiLower (String.mk (filename.data.map sanitizeChar))) ".png" ||
        pyEndsWith (asciiLower (String.mk (filename.data.map sanitizeChar))) ".svg" ||
        pyEndsWith (asciiLower (String.mk (filename.data.map sanitizeChar))) ".pdf") = true
    · rw [if_pos h]; exact Or.inl rfl
    · rw [if_neg h]; exact Or.inr rfl

/-- Witness for `save_filename_sanitized` at a traversal-shaped filename. -/
theorem save_filename_sanitized_witness :
    sanitizeFilename "../../etc/passwd" = ".._.._etc_passwd.png" ∧
    (∀ c ∈ (sanitizeFilename "../../etc/passwd").data, c ≠ '/' ∧ c ≠ '\\') ∧
    sanitizeFilename "../../etc/passwd" ≠ ".." := by
  have h := save_filename_sanitized "../../etc/passwd"
  exact ⟨by decide, h.1, h.2.2.2.2.1⟩

-- ══════════════ Pass-structure lemmas for _redact_text ═══════════════════════

theorem subnAux_zero (tryM : Option Char → List Char → Option (Nat × List Char)) :
    ∀ fuel prev l, l.length ≤ fuel → (subnAux tryM fuel prev l).2 = 0 →
      (subnAux tryM fuel prev l).1 = l := by
  intro fuel
  induction fuel with
  | zero =>
    intro prev l hl _
    have : l = [] := List.length_eq_zero.mp (Nat.le_zero.mp hl)
    subst this; rfl
  | succ n ih =>
    intro prev l hl hz
    match l with
    | [] => rfl
    | c :: cs =>
      have hcs : cs.length ≤ n := by
        simp only [List.length_cons] at hl; omega
      rcases e : tryM prev (c :: cs) with _ | ⟨k, rep⟩
      · have hz2 : (subnAux tryM n (some c) cs).2 = 0 := by
          simpa [subnAux, e] using hz
        have := ih (some c) cs hcs hz2
        simp [subnAux, e, this]
      · match k with
        | 0 =>
          have hz2 : (subnAux tryM n (some c) cs).2 = 0 := by
            simpa [subnAux, e] using hz
          have := ih (some c) cs hcs hz2
          simp [subnAux, e, this]
        | k + 1 =>
          exfalso
          simp [subnAux, e] at hz

theorem subn_count_zero (tryM : Option Char → List Char → Option (Nat × List Char))
    (t : String) (h : (subn tryM t).2 = 0) : (subn tryM t).1 = t := by
  have h2 : (subnAux tryM t.data.length none t.data).2 = 0 := h
  have h3 := subnAux_zero tryM t.data.length none t.data (le_refl _) h2
  show String.mk (subnAux tryM t.data.length none t.data).1 = t
  rw [h3]

theorem patternStepGo_unchanged :
    ∀ (ps : List (String × (Option Char → List Char → Option (Nat × List Char))))
      (acc : String × Bool × List String),
      (patternStepGo ps acc).2.1 = false →
      (patternStepGo ps acc).1 = acc.1 ∧ acc.2.1 = false := by
  intro ps
  induction ps with
  | nil => intro acc h; exact ⟨rfl, h⟩
  | cons nt ps ih =>
    intro acc h
    by_cases hc : (subn nt.2 acc.1).2 = 0
    · have e : patternStepGo (nt :: ps) acc =
          patternStepGo ps ((subn nt.2 acc.1).1, acc.2.1, acc.2.2) := by
        simp only [patternStepGo]
        rw [if_neg (by omega)]
      rw [e] at h ⊢
      obtain ⟨h1, h2⟩ := ih _ h
      refine ⟨?_, h2⟩
      rw [h1]
      exact subn_count_zero _ _ hc
    · exfalso
      have e : patternStepGo (nt :: ps) acc =
          patternStepGo ps ((subn nt.2 acc.1).1, true, addRule acc.2.2 nt.1) := by
        simp only [patternStepGo]
        rw [if_pos hc]
      rw [e] at h
      have := (ih _ h).2
      exact absurd this (by simp)

theorem patternStep_unchanged (t : String) (h : (patternStep t).2.1 = false) :
    (patternStep t).1 = t := by
  unfold patternStep at h ⊢
  exact (patternStepGo_unchanged TEXT_REDACTION_PATTERNS (t, false, []) h).1

theorem envLineStep_unchanged (t : String) (h : (envLineStep t).2 = false) :
    (envLineStep t).1 = t := by
  unfold envLineStep at h ⊢
  split at h
  · exact absurd h (by simp)
  · rename_i hc
    rw [if_neg hc]

theorem redactTextGo_exit (env : List String) :
    ∀ fuel t ca rs out b r, redactTextGo env fuel t ca rs = some (out, b, r) →
      (redactPass env out).2.1 = false := by
  intro fuel
  induction fuel with
  | zero => intro t ca rs out b r h; exact absurd h (by simp [redactTextGo])
  | succ n ih =>
    intro t ca rs out b r h
    by_cases hc : (redactPass env t).2.1 = true
    · have h2 : redactTextGo env n (redactPass env t).1 true
          ((redactPass env t).2.2.foldl addRule rs) = some (out, b, r) := by
        rw [redactTextGo] at h
        simpa [hc] using h
      exact ih _ _ _ _ _ _ h2
    · rw [redactTextGo] at h
      simp only [Bool.not_eq_true] at hc
      rw [if_neg (by rw [hc]; simp)] at h
      have h2 := Option.some.inj h
      have h3 : t = out := congrArg (fun x => x.1) h2
      rw [← h3]
      exact hc

-- ═════════════════════ C2: both redaction passes are idempotent ══════════════

mutual
theorem redactStructured_idem : ∀ v : Json,
    (redactStructured (redactStructured v).1).1 = (redactStructured v).1
  | .null => rfl
  | .bool _ => rfl
  | .num _ => rfl
  | .str _ => rfl
  | .arr items => by
    simp only [redactStructured]
    rw [redactStructuredList_idem items]
  | .obj entries => by
    simp only [redactStructured]
    rw [redactStructuredObj_idem entries]

theorem redactStructuredObj_idem : ∀ l,
    (redactStructuredObj (redactStructuredObj l).1).1 = (redactStructuredObj l).1
  | [] => rfl
  | (k, item) :: rest => by
    by_cases h : isSensitiveKey k = true
    · simp only [redactStructuredObj, h, if_true]
      rw [redactStructuredObj_idem rest]
    · simp only [redactStructuredObj, h, if_false, Bool.false_eq_true]
      rw [redactStructured_idem item, redactStructuredObj_idem rest]

theorem redactStructuredList_idem : ∀ l,
    (redactStructuredList (redactStructuredList l).1).1 = (redactStructuredList l).1
  | [] => rfl
  | item :: rest => by
    simp only [redactStructuredList]
    rw [redactStructured_idem item, redactStructuredList_idem rest]
end

/-- C2: both redaction passes are idempotent on their outputs — re-running
the structured pass on its own output returns that output unchanged, and
whenever the free-text pass terminates (returns within some pass budget),
re-running it on the returned text exits after one no-op pass with the
same text. -/
theorem redaction_passes_idempotent :
    (∀ v : Json, (redactStructured (redactStructured v).1).1 = (redactStructured v).1) ∧
    (∀ env fuel s out b r, redactText env fuel s = some (out, b, r) →
       ∀ fuel2, 0 < fuel2 → redactText env fuel2 out = some (out, false, [])) := by
  refine ⟨redactStructured_idem, ?_⟩
  intro env fuel s out b r h fuel2 h2
  have hex := redactTextGo_exit env fuel s false [] out b r h
  match fuel2, h2 with
  | m + 1, _ =>
    rw [redactText, redactTextGo]
    rw [if_neg (by rw [hex]; simp)]

/-- Witness for `redaction_passes_idempotent`: a terminating redaction of a
key-shaped secret, and a structured dict with a sensitive key. -/
theorem redaction_passes_idempotent_witness :
    redactText [] 1 "sk-[REDACTED]" = some ("sk-[REDACTED]", false, []) ∧
    (redactStructured (redactStructured (.obj [("api_key", .str "s3cr3t")])).1).1 =
      (redactStructured (.obj [("api_key", .str "s3cr3t")])).1 := by
  constructor
  · exact redaction_passes_idempotent.2 [] 3 "sk-abcdefghij0123456789xy" "sk-[REDACTED]" true
      ["openai_key"] (by decide) 1 (by decide)
  · exact redaction_passes_idempotent.1 (.obj [("api_key", .str "s3cr3t")])

-- ═════════ C1: the free-text fixed-point loop does not always terminate ══════

theorem dotenv_refires : redactPass [] "FOO=[REDACTED]" = ("FOO=[REDACTED]", true, ["dotenv_line"]) := by
  decide

theorem redactTextGo_foo_red_none :
    ∀ fuel ca rs, redactTextGo [] fuel "FOO=[REDACTED]" ca rs = none := by
  intro fuel
  induction fuel with
  | zero => intro ca rs; rfl
  | succ n ih =>
    intro ca rs
    rw [redactTextGo, dotenv_refires]
    simp only [if_true]
    exact ih true _

/-- C1: the free-text redaction pass does not terminate on every input.
On `"FOO=bar"` the `dotenv_line` rule fires on its own output forever
(`subn` reports a nonzero substitution count on `"FOO=[REDACTED]"` even
though the text no longer changes), so the while-loop never observes a
pass with no firing rule: the fuel-indexed model returns `none` at every
pass budget. -/
theorem redact_text_nonterminating : ∀ fuel, redactText [] fuel "FOO=bar" = none := by
  intro fuel
  match fuel with
  | 0 => rfl
  | n + 1 =>
    rw [redactText, redactTextGo]
    have h1 : redactPass [] "FOO=bar" = ("FOO=[REDACTED]", true, ["dotenv_line"]) := by decide
    rw [h1]
    simp only [if_true]
    exact redactTextGo_foo_red_none n true _

-- ═══════ C8: a live env secret (OPENAI_API_KEY) never survives redaction ═════

theorem envC8_eq : envC8 = ["sk-abcdefghij0123456789"] := by decide

theorem envValueStep_envC8_clean (t : String) (h : (envValueStep envC8 t).2 = false) :
    pyContains t "sk-abcdefghij0123456789" = false := by
  rw [envC8_eq] at h
  unfold envValueStep at h
  rw [List.foldl_cons, List.foldl_nil] at h
  by_cases hp : pyContains t "sk-abcdefghij0123456789" = true
  · exfalso
    rw [if_pos (by simp [hp])] at h
    exact absurd h (by simp)
  · exact Bool.not_eq_true _ ▸ (by simpa using hp)

/-- C8 (counterexample): with `OPENAI_API_KEY=sk-abcdefghij0123456789` in
the environment, redacting exactly that literal does not produce the
`[REDACTED_ENV]` marker: the `openai_key` pattern rule runs earlier in the
same pass and rewrites it to `sk-[REDACTED]` first, so the env-value
replacement never sees it. -/
theorem env_secret_counterexample :
    redactText envC8 2 "sk-abcdefghij0123456789" = some ("sk-[REDACTED]", true, ["openai_key"]) ∧
    pyContains "sk-[REDACTED]" "[REDACTED_ENV]" = false := by
  constructor
  · decide
  · decide

/-- C8 (amended): with that environment, whenever `_redact_text` returns,
its output never contains the secret value itself — each pass's env-value
stage fires (keeping the loop running) while the literal is present, so at
loop exit the literal is gone; but a given occurrence may have been
rewritten by an earlier pattern rule (e.g. `sk-[REDACTED]`) rather than by
the `[REDACTED_ENV]` marker. -/
theorem env_secret_never_survives (fuel : Nat) (s out : String) (b : Bool) (r : List String)
    (h : redactText envC8 fuel s = some (out, b, r)) :
    pyContains out "sk-abcdefghij0123456789" = false := by
  have hex := redactTextGo_exit envC8 fuel s false [] out b r h
  have hsplit : ((patternStep out).2.1 || (envLineStep (patternStep out).1).2 ||
      (envValueStep envC8 (envLineStep (patternStep out).1).1).2) = false := by
    have h2 := hex
    simp only [redactPass] at h2
    exact h2
  simp only [Bool.or_eq_false_iff] at hsplit
  obtain ⟨⟨h1, h2⟩, h3⟩ := hsplit
  rw [patternStep_unchanged out h1] at h2 h3
  rw [envLineStep_unchanged out h2] at h3
  exact envValueStep_envC8_clean out h3

/-- Witness for `env_secret_never_survives` at a concrete text containing
the secret in a non-word-boundary context (where the env-value replacement
itself fires). -/
theorem env_secret_never_survives_witness :
    pyContains "X[REDACTED_ENV]" "sk-abcdefghij0123456789" = false := by
  exact env_secret_never_survives 3 "Xsk-abcdefghij0123456789" "X[REDACTED_ENV]" true
    ["env_value"] (by decide)

-- ════════ C6: per-turn trace sequencing of the streaming tool loop ═══════════

theorem roundEventsGo_map_seq (turn : Nat) :
    ∀ bids seq n, (roundEventsGo turn seq n bids).map (fun e => e.seq) =
      List.range' (seq + 1) (2 * bids.length) := by
  intro bids
  induction bids with
  | nil => intro seq n; simp [roundEventsGo]
  | cons bid rest ih =>
    intro seq n
    simp only [roundEventsGo, List.map_cons, List.length_cons]
    rw [ih (seq + 2) (n + 1)]
    have h2 : 2 * (rest.length + 1) = 2 * rest.length + 1 + 1 := by ring
    rw [h2, List.range'_succ, List.range'_succ]

theorem chain'_lt_range' : ∀ n s, List.Chain' (· < ·) (List.range' s n) := by
  intro n
  induction n with
  | zero => intro s; simp
  | succ m ih =>
    intro s
    rw [List.range'_succ]
    cases m with
    | zero => simp
    | succ k =>
      rw [List.range'_succ]
      exact List.chain'_cons.mpr ⟨by omega, by rw [← List.range'_succ]; exact ih (s + 1)⟩

theorem roundEventsGo_mem_id (turn : Nat) :
    ∀ bids seq n e, e ∈ roundEventsGo turn seq n bids →
      e.toolUseId ∈ resolvedIds turn n bids := by
  intro bids
  induction bids with
  | nil => intro seq n e h; exact absurd h (by simp [roundEventsGo])
  | cons bid rest ih =>
    intro seq n e h
    simp only [roundEventsGo, List.mem_cons] at h
    rcases h with rfl | rfl | h
    · simp [resolvedIds]
    · simp [resolvedIds]
    · simp only [resolvedIds, List.mem_cons]
      exact Or.inr (ih (seq + 2) (n + 1) e h)

theorem roundEventsGo_pairing (turn : Nat) :
    ∀ bids seq n, (resolvedIds turn n bids).Nodup →
      ∀ e1 ∈ roundEventsGo turn seq n bids, ∀ e2 ∈ roundEventsGo turn seq n bids,
        e1.toolUseId = e2.toolUseId → e1.phase = .start → e2.phase = .result →
        e1.seq < e2.seq := by
  intro bids
  induction bids with
  | nil => intro seq n _ e1 h1; exact absurd h1 (by simp [roundEventsGo])
  | cons bid rest ih =>
    intro seq n hnd e1 h1 e2 h2 hid hp1 hp2
    rw [resolvedIds, List.nodup_cons] at hnd
    simp only [roundEventsGo, List.mem_cons] at h1 h2
    rcases h1 with rfl | rfl | h1 <;> rcases h2 with rfl | rfl | h2
    · exact absurd hp2 (by simp)
    · show seq + 1 < seq + 2
      omega
    · exfalso
      have := roundEventsGo_mem_id turn rest (seq + 2) (n + 1) e2 h2
      rw [← hid] at this
      exact hnd.1 this
    · exact absurd hp1 (by simp)
    · exact absurd hp1 (by simp)
    · exact absurd hp1 (by simp)
    · exact absurd hp2 (by simp)
    · exfalso
      have := roundEventsGo_mem_id turn rest (seq + 2) (n + 1) e1 h1
      rw [hid] at this
      exact hnd.1 this
    · exact ih (seq + 2) (n + 1) hnd.2 e1 h1 e2 h2 hid hp1 hp2

/-- C6 (amended): within one provider round-trip the trace sequence numbers
are exactly 1, 2, …, 2·m (hence strictly increasing), and — when the
resolved tool_use_ids of the round-trip are pairwise distinct — every start
event's sequence number is strictly below the matching result event's.
The counter is reset at the start of each round-trip, so monotonicity does
not extend across a whole turn (see the counterexample). -/
theorem stream_trace_seq_per_round (turn : Nat) (blockIds : List String) :
    (roundEvents turn blockIds).map (fun e => e.seq) = List.range' 1 (2 * blockIds.length) ∧
    List.Chain' (fun a b => a.seq < b.seq) (roundEvents turn blockIds) ∧
    ((resolvedIds turn 0 blockIds).Nodup →
      ∀ e1 ∈ roundEvents turn blockIds, ∀ e2 ∈ roundEvents turn blockIds,
        e1.toolUseId = e2.toolUseId → e1.phase = .start → e2.phase = .result →
        e1.seq < e2.seq) := by
  refine ⟨roundEventsGo_map_seq turn blockIds 0 0, ?_, roundEventsGo_pairing turn blockIds 0 0⟩
  have h := chain'_lt_range' (2 * blockIds.length) 1
  rw [← roundEventsGo_map_seq turn blockIds 0 0] at h
  exact (List.chain'_map (fun e : TraceEv => e.seq)).mp h

/-- Witness for `stream_trace_seq_per_round` on a round-trip with two
distinct provider ids. -/
theorem stream_trace_seq_per_round_witness :
    (roundEvents 0 ["a", "b"]).map (fun e => e.seq) = [1, 2, 3, 4] ∧
    (∀ e1 ∈ roundEvents 0 ["a", "b"], ∀ e2 ∈ roundEvents 0 ["a", "b"],
      e1.toolUseId = e2.toolUseId → e1.phase = .start → e2.phase = .result →
      e1.seq < e2.seq) := by
  have h := stream_trace_seq_per_round 0 ["a", "b"]
  refine ⟨?_, h.2.2 (by decide)⟩
  rw [h.1]
  decide

/-- C6 (counterexample): across a whole turn with two provider round-trips
the sequence numbers are 1, 2, 1, 2 — not monotonically increasing, because
`trace_seq` is reset to 0 at the top of each round-trip. -/
theorem stream_seq_not_monotone_across_turn :
    (streamTraceEvents 0 [["a"], ["b"]]).map (fun e => e.seq) = [1, 2, 1, 2] ∧
    ¬ List.Chain' (fun a b => a.seq < b.seq) (streamTraceEvents 0 [["a"], ["b"]]) := by
  refine ⟨by decide, fun h => ?_⟩
  have e : streamTraceEvents 0 [["a"], ["b"]] =
      [⟨.start, "a", 1⟩, ⟨.result, "a", 2⟩, ⟨.start, "b", 1⟩, ⟨.result, "b", 2⟩] := by decide
  rw [e] at h
  have h1 := (List.chain'_cons.mp h).2
  have h2 := (List.chain'_cons.mp h1).1
  exact absurd h2 (by decide)

-- ═══════ C7: budget exhaustion outcomes of the two agent loops ═══════════════

theorem runAnthropicGo_exhaust (provider : Nat → StopReason) (maxTurns : Nat) :
    ∀ remaining calls, (∀ t, t < calls + remaining → provider t = .toolUse) →
      runAnthropicGo provider maxTurns remaining calls =
        (("max_turns", "Reached " ++ natToDecimal maxTurns ++ " turns without completing."),
         calls + remaining) := by
  intro remaining
  induction remaining with
  | zero => intro calls _; rfl
  | succ m ih =>
    intro calls h
    rw [runAnthropicGo, h calls (by omega)]
    have := ih (calls + 1) (fun t ht => h t (by omega))
    rw [this]
    have e : calls + 1 + m = calls + (m + 1) := by omega
    rw [e]

theorem streamTerminalGo_exhaust (provider : Nat → StopReason) (maxTurns : Nat) :
    ∀ remaining calls, (∀ t, t < calls + remaining → provider t = .toolUse) →
      streamTerminalGo provider maxTurns remaining calls =
        ("error", "Reached " ++ natToDecimal maxTurns ++ " turns without completing.") := by
  intro remaining
  induction remaining with
  | zero => intro calls _; rfl
  | succ m ih =>
    intro calls h
    rw [streamTerminalGo, h calls (by omega)]
    exact ih (calls + 1) (fun t ht => h t (by omega))

/-- C7 (amended): when every provider round-trip up to the budget requests
tool use, the synchronous CLI loop returns the explicit status
`"max_turns"` — distinct from `"error"` — after exactly `maxTurns` provider
calls (no further call is issued); the streaming loop, however, signals the
same exhaustion as an `"error"`-typed event whose message is
`"Reached N turns without completing."`. -/
theorem budget_exhaustion_outcomes (provider : Nat → StopReason) (maxTurns : Nat)
    (h : ∀ t, t < maxTurns → provider t = .toolUse) :
    runAnthropic provider maxTurns =
      (("max_turns", "Reached " ++ natToDecimal maxTurns ++ " turns without completing."),
       maxTurns) ∧
    ("max_turns" : String) ≠ "error" ∧
    streamTerminal provider maxTurns =
      ("error", "Reached " ++ natToDecimal maxTurns ++ " turns without completing.") := by
  refine ⟨?_, by decide, ?_⟩
  · have := runAnthropicGo_exhaust provider maxTurns maxTurns 0 (by simpa using h)
    simpa [runAnthropic] using this
  · exact streamTerminalGo_exhaust provider maxTurns maxTurns 0 (by simpa using h)

/-- Witness for `budget_exhaustion_outcomes` at budget 2. -/
theorem budget_exhaustion_outcomes_witness :
    runAnthropic (fun _ => .toolUse) 2 =
      (("max_turns", "Reached 2 turns without completing."), 2) ∧
    streamTerminal (fun _ => .toolUse) 2 =
      ("error", "Reached 2 turns without completing.") := by
  have h := budget_exhaustion_outcomes (fun _ => .toolUse) 2 (fun t _ => rfl)
  refine ⟨?_, ?_⟩
  · rw [h.1]; decide
  · rw [h.2.2]; decide

/-- C7 (counterexample): the streaming engine's budget-exhaustion event is
typed `"error"`, not a distinct `max_turns` outcome. -/
theorem stream_budget_exhaustion_is_error_typed :
    streamTerminal (fun _ => .toolUse) 1 = ("error", "Reached 1 turns without completing.") ∧
    (streamTerminal (fun _ => .toolUse) 1).1 ≠ "max_turns" := by
  constructor
  · decide
  · decide

-- ═══════ C9: dispatch_tool error behaviour ═══════════════════════════════════

/-- C9 (amended): `dispatch_tool` returns — it does not raise — for every
unrecognised tool name (the sentinel text) and for every failed render
whose `source` input is present (the textual failure description embedding
backend name, error, and captured stderr); but a missing required input
key raises `KeyError` through the dispatcher (see the counterexample). -/
theorem dispatch_tool_error_paths :
    (∀ oracles name inputs s, knownTools.contains name = false →
      dispatch_tool oracles name inputs s = .ok (.text ("Unknown tool: " ++ name), s)) ∧
    (∀ oracles inputs src s, getReq inputs "source" = .ok src →
      (oracles.renderTikz src).success = false →
      dispatch_tool oracles "render_tikz" inputs s =
        .ok (.text (renderFailureText "tikz" (oracles.renderTikz src).error
          (oracles.renderTikz src).stderr), s)) ∧
    (∀ oracles inputs src s, getReq inputs "source" = .ok src →
      (oracles.renderMatplotlib src).success = false →
      dispatch_tool oracles "render_matplotlib" inputs s =
        .ok (.text (renderFailureText "matplotlib" (oracles.renderMatplotlib src).error
          (oracles.renderMatplotlib src).stderr), s)) ∧
    (∀ oracles inputs src s, getReq inputs "source" = .ok src →
      (oracles.renderGraphviz src (getOpt inputs "engine" "dot")).success = false →
      dispatch_tool oracles "render_graphviz" inputs s =
        .ok (.text (renderFailureText "graphviz"
          (oracles.renderGraphviz src (getOpt inputs "engine" "dot")).error
          (oracles.renderGraphviz src (getOpt inputs "engine" "dot")).stderr), s)) := by
  refine ⟨?_, ?_, ?_, ?_⟩
  · intro oracles name inputs s h
    have hne : ∀ t : String, knownTools.contains t = true → name ≠ t := by
      intro t ht he
      rw [he, ht] at h
      exact absurd h (by decide)
    unfold dispatch_tool
    rw [if_neg (hne _ (by decide)), if_neg (hne _ (by decide)), if_neg (hne _ (by decide)),
      if_neg (hne _ (by decide)), if_neg (hne _ (by decide)), if_neg (hne _ (by decide))]
    rfl
  · intro oracles inputs src s hsrc hfail
    unfold dispatch_tool
    rw [if_neg (by decide), if_pos rfl]
    rw [show (do
        let src ← getReq inputs "source"
        pure (renderTool oracles "tikz" src "dot" s) :
        Except PyErr (ToolResult × RSession)) = pure (renderTool oracles "tikz" src "dot" s) from by
      rw [hsrc]; rfl]
    simp [renderTool, hfail]
    rfl
  · intro oracles inputs src s hsrc hfail
    unfold dispatch_tool
    rw [if_neg (by decide), if_neg (by decide), if_pos rfl]
    rw [show (do
        let src ← getReq inputs "source"
        pure (renderTool oracles "matplotlib" src "dot" s) :
        Except PyErr (ToolResult × RSession)) = pure (renderTool oracles "matplotlib" src "dot" s) from by
      rw [hsrc]; rfl]
    simp [renderTool, hfail]
    rfl
  · intro oracles inputs src s hsrc hfail
    unfold dispatch_tool
    rw [if_neg (by decide), if_neg (by decide), if_neg (by decide), if_pos rfl]
    rw [show (do
        let src ← getReq inputs "source"
        pure (renderTool oracles "graphviz" src (getOpt inputs "engine" "dot") s) :
        Except PyErr (ToolResult × RSession)) =
        pure (renderTool oracles "graphviz" src (getOpt inputs "engine" "dot") s) from by
      rw [hsrc]; rfl]
    simp [renderTool, hfail]
    rfl

/-- C9 (counterexample): a recognised tool invoked without its required
input key raises `KeyError` past the dispatcher boundary instead of
returning a textual result. -/
theorem dispatch_tool_keyerror_counterexample :
    dispatch_tool stubOracles "render_tikz" [] ⟨[], none⟩ = .error (.keyError "source") := by
  decide

/-- Witness for `dispatch_tool_error_paths` at concrete arguments. -/
theorem dispatch_tool_error_paths_witness :
    dispatch_tool stubOracles "bogus_tool" [] ⟨[], none⟩ =
      .ok (.text "Unknown tool: bogus_tool", ⟨[], none⟩) ∧
    dispatch_tool stubOracles "render_tikz" [("source", "x")] ⟨[], none⟩ =
      .ok (.text (renderFailureText "tikz" "E" ""), ⟨[], none⟩) := by
  constructor
  · exact dispatch_tool_error_paths.1 stubOracles "bogus_tool" [] ⟨[], none⟩ (by decide)
  · exact dispatch_tool_error_paths.2.1 stubOracles [("source", "x")] "x" ⟨[], none⟩
      (by decide) (by decide)

-- ── Ordered-dict algebra (for the finalizer's size/drop stage) ───────────────

theorem objGet_objSet_self (d : PyDict) (k : String) (v : Json) :
    objGet (objSet d k v) k = some v := by
  induction d with
  | nil => simp [objSet, objGet, List.find?]
  | cons e rest ih =>
    obtain ⟨k1, v1⟩ := e
    by_cases h : k1 = k
    · subst h
      simp [objSet, objGet, List.find?]
    · simp only [objSet, if_neg h]
      have hb : (k1 == k) = false := by simp [h]
      simpa [objGet, List.find?, hb] using ih

theorem objGet_objSet_ne (d : PyDict) (k k' : String) (v : Json) (h : k ≠ k') :
    objGet (objSet d k v) k' = objGet d k' := by
  have hb : (k == k') = false := by simp [h]
  induction d with
  | nil => simp [objSet, objGet, List.find?, hb]
  | cons e rest ih =>
    obtain ⟨k1, v1⟩ := e
    by_cases h1 : k1 = k
    · subst h1
      simp [objSet, objGet, List.find?, hb]
    · simp only [objSet, if_neg h1]
      by_cases h2 : k1 = k'
      · subst h2
        simp [objGet, List.find?]
      · have hb2 : (k1 == k') = false := by simp [h2]
        simpa [objGet, List.find?, hb2] using ih

theorem objGet_mem (p : PyDict) (k : String) (v : Json) (h : objGet p k = some v) :
    (k, v) ∈ p := by
  unfold objGet at h
  cases hf : p.find? (fun e => e.1 == k) with
  | none => rw [hf] at h; simp at h
  | some e =>
    rw [hf] at h
    obtain ⟨k1, v1⟩ := e
    have hm := List.mem_of_find?_eq_some hf
    have hp := List.find?_some hf
    simp at hp h
    rw [← hp, ← h]
    exact hm

theorem setRecorded_objGet_ne (p : PyDict) (n : Int) (k : String) (h : k ≠ "size") :
    objGet (setRecorded p n) k = objGet p k := by
  unfold setRecorded
  split
  · exact objGet_objSet_ne _ _ _ _ (Ne.symm h)
  · rfl

theorem sizeFix_objGet_ne (n : Nat) (p : PyDict) (k : String) (h : k ≠ "size") :
    objGet (sizeFix n p) k = objGet p k := by
  induction n generalizing p with
  | zero => rfl
  | succ m ih =>
    have hstep : sizeFix (m + 1) p =
        if getRecorded p = ((eventSize p : Int)) then p
        else sizeFix m (setRecorded p ((eventSize p : Int))) := rfl
    rw [hstep]
    split
    · rfl
    · rw [ih, setRecorded_objGet_ne _ _ _ h]

theorem setRecorded_sizeTrunc (p : PyDict) (n : Int) :
    sizeTrunc (setRecorded p n) = sizeTrunc p ∧
    ((∃ s, objGet p "size" = some (Json.obj s)) →
      ∃ s, objGet (setRecorded p n) "size" = some (Json.obj s)) := by
  unfold setRecorded
  split
  · rename_i s hs
    constructor
    · unfold sizeTrunc
      rw [objGet_objSet_self, hs]
      exact objGet_objSet_ne _ _ _ _ (by decide)
    · intro _
      exact ⟨_, objGet_objSet_self _ _ _⟩
  · exact ⟨rfl, fun h => h⟩

theorem sizeFix_sizeTrunc (n : Nat) (p : PyDict) :
    sizeTrunc (sizeFix n p) = sizeTrunc p ∧
    ((∃ s, objGet p "size" = some (Json.obj s)) →
      ∃ s, objGet (sizeFix n p) "size" = some (Json.obj s)) := by
  induction n generalizing p with
  | zero => exact ⟨rfl, fun h => h⟩
  | succ m ih =>
    have hstep : sizeFix (m + 1) p =
        if getRecorded p = ((eventSize p : Int)) then p
        else sizeFix m (setRecorded p ((eventSize p : Int))) := rfl
    rw [hstep]
    split
    · exact ⟨rfl, fun h => h⟩
    · constructor
      · rw [(ih _).1, (setRecorded_sizeTrunc p _).1]
      · intro h
        exact (ih _).2 ((setRecorded_sizeTrunc p _).2 h)

theorem markEventTruncated_objGet_ne (p : PyDict) (k : String) (h : k ≠ "size") :
    objGet (markEventTruncated p) k = objGet p k := by
  unfold markEventTruncated
  split
  · exact objGet_objSet_ne _ _ _ _ (Ne.symm h)
  · rfl

theorem markEventTruncated_sizeTrunc (p : PyDict)
    (h : ∃ s, objGet p "size" = some (Json.obj s)) :
    sizeTrunc (markEventTruncated p) = some (Json.bool true) := by
  obtain ⟨s0, hs0⟩ := h
  unfold markEventTruncated
  split
  · rename_i s hs
    unfold sizeTrunc
    rw [objGet_objSet_self]
    exact objGet_objSet_self _ _ _
  · rename_i hne
    exact absurd hs0 (hne s0)

theorem sizeTrunc_congr (p p' : PyDict) (h : objGet p "size" = objGet p' "size") :
    sizeTrunc p = sizeTrunc p' := by
  unfold sizeTrunc
  rw [h]

theorem dropResultText_objGet_ne (p : PyDict) (k : String)
    (h1 : k ≠ "result_text") (h2 : k ≠ "result_truncated") :
    objGet (dropResultText p) k = objGet p k := by
  unfold dropResultText
  split
  · rw [objGet_objSet_ne _ _ _ _ (Ne.symm h2), objGet_objSet_ne _ _ _ _ (Ne.symm h1)]
  · rfl

theorem dropResultText_clears (p : PyDict) :
    isNotNone (objGet (dropResultText p) "result_text") = false := by
  unfold dropResultText
  split
  · rw [objGet_objSet_ne _ _ _ _ (by decide), objGet_objSet_self]
    rfl
  · rename_i h
    simpa using h

theorem dropResultText_flag (p : PyDict)
    (h : isNotNone (objGet p "result_text") = true) :
    objGet (dropResultText p) "result_truncated" = some (Json.bool true) := by
  unfold dropResultText
  rw [if_pos h]
  exact objGet_objSet_self _ _ _

theorem dropInputFull_objGet_ne (p : PyDict) (k : String)
    (h1 : k ≠ "input_full") (h2 : k ≠ "input_truncated") :
    objGet (dropInputFull p) k = objGet p k := by
  unfold dropInputFull
  split
  · rw [objGet_objSet_ne _ _ _ _ (Ne.symm h2), objGet_objSet_ne _ _ _ _ (Ne.symm h1)]
  · rfl

theorem dropInputFull_fires (p : PyDict)
    (h1 : isNotNone (objGet p "input_full") = true)
    (h2 : MAX_EVENT_BYTES < eventSize p) :
    objGet (dropInputFull p) "input_full" = some Json.null ∧
    objGet (dropInputFull p) "input_truncated" = some (Json.bool true) := by
  unfold dropInputFull
  rw [if_pos (by rw [h1]; simpa using h2)]
  constructor
  · rw [objGet_objSet_ne _ _ _ _ (by decide), objGet_objSet_self]
  · exact objGet_objSet_self _ _ _

theorem dropInputFull_skips (p : PyDict) (h : eventSize p ≤ MAX_EVENT_BYTES) :
    dropInputFull p = p := by
  unfold dropInputFull
  rw [if_neg]
  intro hc
  rw [Bool.and_eq_true] at hc
  exact absurd (of_decide_eq_true hc.2) (not_lt.mpr h)

theorem objGet_dropStage_other (p : PyDict) (k : String)
    (h1 : k ≠ "size") (h2 : k ≠ "result_text") (h3 : k ≠ "result_truncated")
    (h4 : k ≠ "input_full") (h5 : k ≠ "input_truncated") :
    objGet (dropStage p) k = objGet p k := by
  unfold dropStage
  split
  · rw [sizeFix_objGet_ne _ _ _ h1, dropInputFull_objGet_ne _ _ h4 h5,
        dropResultText_objGet_ne _ _ h2 h3, markEventTruncated_objGet_ne _ _ h1]
  · rfl

-- ── Serialized-size lower bounds ─────────────────────────────────────────────

theorem utf8Len_le_go (sep : String) (l : List String) :
    ∀ (acc s : String), (s = acc ∨ s ∈ l) →
      utf8Len s ≤ utf8Len (String.intercalate.go acc sep l) := by
  induction l with
  | nil =>
    intro acc s h
    rcases h with h | h
    · subst h
      exact le_of_eq rfl
    · cases h
  | cons b bs ih =>
    intro acc s h
    have hstep : String.intercalate.go acc sep (b :: bs) =
        String.intercalate.go (acc ++ sep ++ b) sep bs := rfl
    rw [hstep]
    have hacc : utf8Len acc ≤ utf8Len (acc ++ sep ++ b) := by
      rw [utf8Len_append, utf8Len_append]
      omega
    have hb : utf8Len b ≤ utf8Len (acc ++ sep ++ b) := by
      rw [utf8Len_append, utf8Len_append]
      omega
    have hbig := ih (acc ++ sep ++ b) (acc ++ sep ++ b) (Or.inl rfl)
    rcases h with h | h
    · subst h
      exact le_trans hacc hbig
    · rcases List.mem_cons.mp h with h | h
      · subst h
        exact le_trans hb hbig
      · exact ih (acc ++ sep ++ b) s (Or.inr h)

theorem utf8Len_le_intercalate (sep : String) (l : List String) (s : String)
    (h : s ∈ l) : utf8Len s ≤ utf8Len (String.intercalate sep l) := by
  cases l with
  | nil => cases h
  | cons a as =>
    rcases List.mem_cons.mp h with h | h
    · subst h
      exact utf8Len_le_go sep as s s (Or.inl rfl)
    · exact utf8Len_le_go sep as a s (Or.inr h)

theorem jsonDumpsObj_mem (entries : List (String × Json)) (k : String) (v : Json)
    (h : (k, v) ∈ entries) :
    (jsonEscape k ++ ": " ++ jsonDumps v) ∈ jsonDumpsObj entries := by
  induction entries with
  | nil => cases h
  | cons e rest ih =>
    obtain ⟨k1, v1⟩ := e
    rcases List.mem_cons.mp h with h | h
    · rw [Prod.mk.injEq] at h
      rw [h.1, h.2]
      exact List.mem_cons_self _ _
    · exact List.mem_cons_of_mem _ (ih h)

theorem eventSize_mem_lower (p : PyDict) (k : String) (v : Json)
    (h : (k, v) ∈ p) : utf8Len (jsonDumps v) ≤ eventSize p := by
  have h1 := jsonDumpsObj_mem p k v h
  have h2 := utf8Len_le_intercalate ", " (jsonDumpsObj p) _ h1
  have h3 : utf8Len (jsonDumps v) ≤ utf8Len (jsonEscape k ++ ": " ++ jsonDumps v) := by
    rw [utf8Len_append, utf8Len_append]
    omega
  unfold eventSize
  rw [show jsonDumps (Json.obj p) =
        "\x7b" ++ String.intercalate ", " (jsonDumpsObj p) ++ "\x7d" from rfl]
  rw [utf8Len_append, utf8Len_append]
  omega

theorem jsonEscapeChar_nul : jsonEscapeChar (Char.ofNat 0) = ['\\', 'u', '0', '0', '0', '0'] := by
  decide

theorem utf8LenL_flatMap_nul (n : Nat) :
    utf8LenL ((List.replicate n (Char.ofNat 0)).flatMap jsonEscapeChar) = 6 * n := by
  induction n with
  | zero => rfl
  | succ m ih =>
    rw [List.replicate_succ, List.flatMap_cons, utf8LenL_append, ih, jsonEscapeChar_nul]
    rw [show utf8LenL ['\\', 'u', '0', '0', '0', '0'] = 6 from by decide]
    omega

theorem utf8Len_jsonEscape_nul (n : Nat) :
    utf8Len (jsonEscape (String.mk (List.replicate n (Char.ofNat 0)))) = 6 * n + 2 := by
  show utf8LenL ('"' :: (List.replicate n (Char.ofNat 0)).flatMap jsonEscapeChar ++ ['"']) = 6 * n + 2
  rw [show ('"' :: (List.replicate n (Char.ofNat 0)).flatMap jsonEscapeChar ++ ['"']) =
        ('"' :: (List.replicate n (Char.ofNat 0)).flatMap jsonEscapeChar) ++ ['"'] from rfl]
  rw [utf8LenL_append]
  rw [show utf8LenL (('"' : Char) :: (List.replicate n (Char.ofNat 0)).flatMap jsonEscapeChar) =
        1 + utf8LenL ((List.replicate n (Char.ofNat 0)).flatMap jsonEscapeChar) from rfl]
  rw [utf8LenL_flatMap_nul]
  rw [show utf8LenL ['"'] = 1 from by decide]
  omega

theorem finalizeFields_blob (s : String) :
    finalizeFields [("blob", Json.str s)] = some (blobFields s) :=
  rfl

theorem finalizeFields_size (p q : PyDict) (h : finalizeFields p = some q) :
    ∃ s, objGet q "size" = some (Json.obj s) := by
  unfold finalizeFields at h
  simp only [] at h
  split at h
  · injection h with h
    subst h
    exact ⟨_, objGet_objSet_self _ _ _⟩
  · cases h

/-- C4: size-ceiling behaviour of `_finalize_trace_payload` (amended).
After the per-field stage produces `q` and the size fixed-point loop runs,
the recorded size is compared against `_MAX_EVENT_BYTES`.  Within the
ceiling, the payload is returned unchanged.  Over the ceiling, the event is
flagged (`size.event_truncated = true`), `result_text` is dropped first
(nulled, flagged `result_truncated = true` when it was present), and
`input_full` is dropped second — exactly when the remeasured event is still
over the ceiling — flagged `input_truncated = true`; when the remeasured
event already fits, `input_full` survives.  Nothing guarantees the final
event fits the ceiling (see `finalize_event_exceeds_ceiling`). -/
theorem finalize_event_drop_priority (p q out : PyDict)
    (hq : finalizeFields p = some q)
    (hout : finalizeTracePayload p = some out) :
    (¬ ((MAX_EVENT_BYTES : Int) < getRecorded (sizeFix 8 q)) → out = sizeFix 8 q) ∧
    ((MAX_EVENT_BYTES : Int) < getRecorded (sizeFix 8 q) →
      sizeTrunc out = some (Json.bool true) ∧
      isNotNone (objGet out "result_text") = false ∧
      (isNotNone (objGet q "result_text") = true →
        objGet out "result_truncated" = some (Json.bool true)) ∧
      (MAX_EVENT_BYTES < eventSize (dropResultText (markEventTruncated (sizeFix 8 q))) →
        isNotNone (objGet q "input_full") = true →
        objGet out "input_full" = some Json.null ∧
        objGet out "input_truncated" = some (Json.bool true)) ∧
      (eventSize (dropResultText (markEventTruncated (sizeFix 8 q))) ≤ MAX_EVENT_BYTES →
        objGet out "input_full" = objGet q "input_full")) := by
  have hout2 : out = dropStage (sizeFix 8 q) := by
    unfold finalizeTracePayload at hout
    rw [hq] at hout
    simpa using hout.symm
  subst hout2
  have hq_size : ∃ s, objGet q "size" = some (Json.obj s) := finalizeFields_size p q hq
  constructor
  · intro hnot
    unfold dropStage
    rw [if_neg hnot]
  · intro hover
    have hds : dropStage (sizeFix 8 q) =
        sizeFix 8 (dropInputFull (dropResultText (markEventTruncated (sizeFix 8 q)))) := by
      unfold dropStage
      rw [if_pos hover]
    rw [hds]
    set m := sizeFix 8 q with hm
    set mid := dropResultText (markEventTruncated m) with hmid
    have hm_size : ∃ s, objGet m "size" = some (Json.obj s) := (sizeFix_sizeTrunc 8 q).2 hq_size
    refine ⟨?_, ?_, ?_, ?_, ?_⟩
    · rw [(sizeFix_sizeTrunc 8 _).1]
      rw [sizeTrunc_congr (dropInputFull mid) mid
            (dropInputFull_objGet_ne _ _ (by decide) (by decide))]
      rw [hmid]
      rw [sizeTrunc_congr _ _ (dropResultText_objGet_ne _ _ (by decide) (by decide))]
      exact markEventTruncated_sizeTrunc m hm_size
    · rw [sizeFix_objGet_ne _ _ _ (by decide),
          dropInputFull_objGet_ne _ _ (by decide) (by decide), hmid]
      exact dropResultText_clears _
    · intro hrt
      have h1 : objGet (markEventTruncated m) "result_text" = objGet q "result_text" := by
        rw [markEventTruncated_objGet_ne _ _ (by decide), hm, sizeFix_objGet_ne _ _ _ (by decide)]
      rw [sizeFix_objGet_ne _ _ _ (by decide),
          dropInputFull_objGet_ne _ _ (by decide) (by decide), hmid]
      exact dropResultText_flag _ (by rw [h1]; exact hrt)
    · intro hov2 hif
      have h1 : objGet mid "input_full" = objGet q "input_full" := by
        rw [hmid, dropResultText_objGet_ne _ _ (by decide) (by decide),
            markEventTruncated_objGet_ne _ _ (by decide), hm, sizeFix_objGet_ne _ _ _ (by decide)]
      have hfire := dropInputFull_fires mid (by rw [h1]; exact hif) hov2
      constructor
      · rw [sizeFix_objGet_ne _ _ _ (by decide)]
        exact hfire.1
      · rw [sizeFix_objGet_ne _ _ _ (by decide)]
        exact hfire.2
    · intro hle
      rw [sizeFix_objGet_ne _ _ _ (by decide), dropInputFull_skips mid hle]
      rw [hmid, dropResultText_objGet_ne _ _ (by decide) (by decide),
          markEventTruncated_objGet_ne _ _ (by decide), hm, sizeFix_objGet_ne _ _ _ (by decide)]

/-- C4 counterexample: the finalized event can exceed `_MAX_EVENT_BYTES`.
A payload whose oversize content sits under a key the finalizer neither
clamps nor drops (here 12000 NUL characters, each serialized as the six
bytes of a `\u0000` escape) flows through every stage untouched, so
`_finalize_trace_payload` returns an event of at least 72002 serialized
bytes — over the 65536-byte ceiling.  The spec's "total serialized size
never exceeds the global ceiling" is therefore false. -/
theorem finalize_event_exceeds_ceiling :
    ∃ out, finalizeTracePayload bigPayload = some out ∧
      MAX_EVENT_BYTES < eventSize out := by
  refine ⟨dropStage (sizeFix 8 (blobFields c4blob)), ?_, ?_⟩
  · unfold finalizeTracePayload
    rw [show finalizeFields bigPayload = some (blobFields c4blob) from finalizeFields_blob c4blob]
    rfl
  · have hget : objGet (dropStage (sizeFix 8 (blobFields c4blob))) "blob" =
        some (Json.str c4blob) := by
      rw [objGet_dropStage_other _ _ (by decide) (by decide) (by decide) (by decide) (by decide),
          sizeFix_objGet_ne _ _ _ (by decide)]
      rfl
    have hlow := eventSize_mem_lower _ _ _ (objGet_mem _ _ _ hget)
    have hsz : utf8Len (jsonDumps (Json.str c4blob)) = 72002 := by
      rw [show jsonDumps (Json.str c4blob) = jsonEscape c4blob from rfl]
      rw [show c4blob = String.mk (List.replicate 12000 (Char.ofNat 0)) from rfl]
      rw [utf8Len_jsonEscape_nul]
    rw [hsz] at hlow
    unfold MAX_EVENT_BYTES
    omega

/-- Witness for `finalize_event_drop_priority` at a concrete small
payload (within the ceiling: the finalized event is the size-fixed field
stage, nothing dropped). -/
theorem finalize_event_drop_priority_witness :
    finalizeFields c4small = some c4smallQ ∧
    finalizeTracePayload c4small = some c4smallOut ∧
    ((¬ ((MAX_EVENT_BYTES : Int) < getRecorded (sizeFix 8 c4smallQ)) →
        c4smallOut = sizeFix 8 c4smallQ) ∧
     ((MAX_EVENT_BYTES : Int) < getRecorded (sizeFix 8 c4smallQ) →
       sizeTrunc c4smallOut = some (Json.bool true) ∧
       isNotNone (objGet c4smallOut "result_text") = false ∧
       (isNotNone (objGet c4smallQ "result_text") = true →
         objGet c4smallOut "result_truncated" = some (Json.bool true)) ∧
       (MAX_EVENT_BYTES < eventSize (dropResultText (markEventTruncated (sizeFix 8 c4smallQ))) →
         isNotNone (objGet c4smallQ "input_full") = true →
         objGet c4smallOut "input_full" = some Json.null ∧
         objGet c4smallOut "input_truncated" = some (Json.bool true)) ∧
       (eventSize (dropResultText (markEventTruncated (sizeFix 8 c4smallQ))) ≤ MAX_EVENT_BYTES →
         objGet c4smallOut "input_full" = objGet c4smallQ "input_full"))) :=
  ⟨by decide, by decide,
   finalize_event_drop_priority c4small c4smallQ c4smallOut (by decide) (by decide)⟩

-- ── Decimal round-trip and render-id arithmetic (session.py) ─────────────────

theorem digitChar_isDigit : ∀ k, k < 10 → (Char.ofNat (48 + k)).isDigit = true := by decide

theorem digitChar_toNat : ∀ k, k < 10 → (Char.ofNat (48 + k)).toNat = 48 + k := by decide

theorem decimalDigitsRev_all_digits (fuel : Nat) :
    ∀ n c, c ∈ decimalDigitsRev fuel n → c.isDigit = true := by
  induction fuel with
  | zero => intro n c hc; cases hc
  | succ f ih =>
    intro n c hc
    unfold decimalDigitsRev at hc
    by_cases h : n = 0
    · rw [if_pos h] at hc
      cases hc
    · rw [if_neg h] at hc
      rcases List.mem_cons.mp hc with hc | hc
      · subst hc
        exact digitChar_isDigit _ (Nat.mod_lt _ (by omega))
      · exact ih _ _ hc

theorem decimalDigitsRev_foldr (fuel : Nat) :
    ∀ n, n ≤ fuel →
      (decimalDigitsRev fuel n).foldr (fun c acc => 10 * acc + (c.toNat - 48)) 0 = n := by
  induction fuel with
  | zero =>
    intro n hn
    interval_cases n
    rfl
  | succ f ih =>
    intro n hn
    unfold decimalDigitsRev
    by_cases h : n = 0
    · rw [if_pos h, h]
      rfl
    · rw [if_neg h]
      rw [List.foldr_cons]
      rw [ih (n / 10) (by
        have := Nat.div_lt_self (Nat.pos_of_ne_zero h) (show 1 < 10 by omega)
        omega)]
      rw [digitChar_toNat _ (Nat.mod_lt _ (by omega))]
      have := Nat.div_add_mod n 10
      omega

theorem decimalDigitsRev_ne_nil (fuel n : Nat) (h1 : n ≠ 0) (h2 : n ≤ fuel) :
    decimalDigitsRev fuel n ≠ [] := by
  cases fuel with
  | zero => omega
  | succ f =>
    unfold decimalDigitsRev
    rw [if_neg h1]
    exact List.cons_ne_nil _ _

theorem natToDecimal_roundtrip (n : Nat) :
    decimalToNat? (natToDecimal n).data = some n := by
  by_cases h : n = 0
  · subst h
    decide
  · unfold natToDecimal
    rw [if_neg h]
    unfold decimalToNat?
    rw [if_pos ?side]
    case side =>
      constructor
      · simpa using decimalDigitsRev_ne_nil n n h le_rfl
      · rw [List.all_eq_true]
        intro c hc
        exact decimalDigitsRev_all_digits n n c (List.mem_reverse.mp hc)
    rw [show (String.mk (decimalDigitsRev n n).reverse).data = (decimalDigitsRev n n).reverse
          from rfl]
    rw [List.foldl_reverse]
    rw [decimalDigitsRev_foldr n n le_rfl]

theorem renderIndex_keyOf (i : Nat) : renderIndex (keyOf i) = some (i + 1) := by
  unfold renderIndex keyOf
  rw [show ("v" ++ natToDecimal (i + 1)).data = 'v' :: (natToDecimal (i + 1)).data from by
        rw [String.data_append]; rfl]
  exact natToDecimal_roundtrip (i + 1)

theorem keyOf_inj (i j : Nat) (h : keyOf i = keyOf j) : i = j := by
  have h1 := renderIndex_keyOf i
  rw [h, renderIndex_keyOf j] at h1
  injection h1 with h1
  omega

theorem keyOf_beq_false (i j : Nat) (h : i ≠ j) : (keyOf i == keyOf j) = false := by
  rw [beq_eq_false_iff_ne]
  intro he
  exact h (keyOf_inj i j he)

-- ── Render-map and render-row structure (session.py) ─────────────────────────

theorem withKeys_length (bs : List Bytes) : ∀ i, (withKeys i bs).length = bs.length := by
  induction bs with
  | nil => intro i; rfl
  | cons b rest ih =>
    intro i
    unfold withKeys
    rw [List.length_cons, List.length_cons, ih]

theorem withKeys_append (a b : List Bytes) :
    ∀ i, withKeys i (a ++ b) = withKeys i a ++ withKeys (i + a.length) b := by
  induction a with
  | nil => intro i; simp [withKeys]
  | cons x rest ih =>
    intro i
    rw [List.cons_append]
    rw [show withKeys i (x :: (rest ++ b)) = (keyOf i, x) :: withKeys (i + 1) (rest ++ b) from rfl]
    rw [show withKeys i (x :: rest) = (keyOf i, x) :: withKeys (i + 1) rest from rfl]
    rw [ih (i + 1), List.cons_append, List.length_cons]
    rw [show i + 1 + rest.length = i + (rest.length + 1) from by omega]

theorem withKeys_any_ge (bs : List Bytes) :
    ∀ i j, i + bs.length ≤ j → (withKeys i bs).any (fun e => e.1 == keyOf j) = false := by
  induction bs with
  | nil => intro i j _; rfl
  | cons b rest ih =>
    intro i j hj
    unfold withKeys
    rw [List.any_cons]
    rw [show ((keyOf i, b).1 == keyOf j) = (keyOf i == keyOf j) from rfl]
    rw [keyOf_beq_false i j (by simp at hj; omega)]
    rw [ih (i + 1) j (by simp at hj; omega)]
    rfl

theorem rowsFrom_add (a : Nat) :
    ∀ i b, rowsFrom i (a + b) = rowsFrom i a ++ rowsFrom (i + a) b := by
  induction a with
  | zero => intro i b; simp [rowsFrom]
  | succ m ih =>
    intro i b
    rw [show m + 1 + b = (m + b) + 1 from by omega]
    rw [show rowsFrom i (m + b + 1) = (keyOf i, i + 1) :: rowsFrom (i + 1) (m + b) from rfl]
    rw [show rowsFrom i (m + 1) = (keyOf i, i + 1) :: rowsFrom (i + 1) m from rfl]
    rw [List.cons_append, ih (i + 1) b]
    rw [show i + 1 + m = i + (m + 1) from by omega]

theorem rowsFrom_map_fst (n : Nat) :
    ∀ i, (rowsFrom i n).map Prod.fst = (List.range' i n).map keyOf := by
  induction n with
  | zero => intro i; rfl
  | succ m ih =>
    intro i
    unfold rowsFrom
    rw [List.range'_succ, List.map_cons, List.map_cons, ih (i + 1)]

theorem rowsFrom_contains_lt (n : Nat) :
    ∀ i j, i ≤ j → j < i + n →
      ((rowsFrom i n).map Prod.fst).contains (keyOf j) = true := by
  induction n with
  | zero => intro i j h1 h2; omega
  | succ m ih =>
    intro i j h1 h2
    unfold rowsFrom
    rw [List.map_cons]
    by_cases he : j = i
    · subst he
      simp [List.contains_cons]
    · rw [List.contains_cons]
      rw [ih (i + 1) j (by omega) (by omega)]
      simp

theorem rowsFrom_contains_ge (n : Nat) :
    ∀ i j, i + n ≤ j →
      ((rowsFrom i n).map Prod.fst).contains (keyOf j) = false := by
  induction n with
  | zero => intro i j h; rfl
  | succ m ih =>
    intro i j h
    unfold rowsFrom
    rw [List.map_cons, List.contains_cons]
    rw [keyOf_beq_false j i (by omega), ih (i + 1) j (by omega)]
    rfl

theorem rendersSet_append (d : List (String × Bytes)) (k : String) (v : Bytes)
    (h : d.any (fun e => e.1 == k) = false) :
    rendersSet d k v = d ++ [(k, v)] := by
  unfold rendersSet
  rw [h]
  rfl

theorem store_render_step (s : RSession) (b : Bytes) (bs : List Bytes)
    (h : s.renders = withKeys 0 bs) :
    store_render s b =
      ({ renders := withKeys 0 (bs ++ [b]), currentRenderId := some (keyOf bs.length) },
       keyOf bs.length) := by
  unfold store_render
  rw [h, withKeys_length]
  show (({ renders := rendersSet (withKeys 0 bs) ("v" ++ natToDecimal (bs.length + 1)) b,
           currentRenderId := some ("v" ++ natToDecimal (bs.length + 1)) } : RSession),
        ("v" ++ natToDecimal (bs.length + 1))) =
      ({ renders := withKeys 0 (bs ++ [b]), currentRenderId := some (keyOf bs.length) },
       keyOf bs.length)
  rw [show ("v" ++ natToDecimal (bs.length + 1)) = keyOf bs.length from rfl]
  rw [rendersSet_append _ _ _ (withKeys_any_ge bs 0 bs.length (by omega))]
  rw [withKeys_append bs [b] 0, Nat.zero_add]
  rfl

theorem updateFold_skip (ex : List String) (todo : List Bytes) :
    ∀ (i : Nat) (acc : RStore),
      (∀ j, i ≤ j → j < i + todo.length → ex.contains (keyOf j) = true) →
      List.foldl (updateEntry ex) acc (withKeys i todo) = acc := by
  induction todo with
  | nil => intro i acc _; rfl
  | cons b rest ih =>
    intro i acc hc
    rw [show withKeys i (b :: rest) = (keyOf i, b) :: withKeys (i + 1) rest from rfl]
    rw [List.foldl_cons]
    rw [show updateEntry ex acc (keyOf i, b) = acc from by
      unfold updateEntry
      rw [hc i le_rfl (by simp)]
      rfl]
    exact ih (i + 1) acc (fun j h1 h2 => hc j (by omega) (by simp at h2 ⊢; omega))

theorem updateFold_insert (ex : List String) (pk : Nat)
    (hex : ∀ j, pk ≤ j → ex.contains (keyOf j) = false) :
    ∀ (todo done : List Bytes) (c : Option String),
      pk ≤ done.length →
      List.foldl (updateEntry ex)
        ⟨rowsFrom 0 done.length, withKeys 0 done, c⟩ (withKeys done.length todo) =
      ⟨rowsFrom 0 (done.length + todo.length), withKeys 0 (done ++ todo), c⟩ := by
  intro todo
  induction todo with
  | nil =>
    intro done c h
    simp [withKeys]
  | cons b rest ih =>
    intro done c h
    rw [show withKeys done.length (b :: rest) =
          (keyOf done.length, b) :: withKeys (done.length + 1) rest from rfl]
    rw [List.foldl_cons]
    rw [show updateEntry ex ⟨rowsFrom 0 done.length, withKeys 0 done, c⟩ (keyOf done.length, b) =
          (⟨rowsFrom 0 (done.length + 1), withKeys 0 (done ++ [b]), c⟩ : RStore) from by
      unfold updateEntry
      rw [hex done.length h]
      rw [if_neg (by decide)]
      rw [show renderIndex (keyOf done.length, b).1 = some (done.length + 1) from
            renderIndex_keyOf done.length]
      show (⟨rowsFrom 0 done.length ++ [((keyOf done.length, b).1, done.length + 1)],
             rendersSet (withKeys 0 done) (keyOf done.length, b).1 (keyOf done.length, b).2,
             c⟩ : RStore) = _
      rw [show ((keyOf done.length, b).1 : String) = keyOf done.length from rfl]
      rw [show ((keyOf done.length, b).2 : Bytes) = b from rfl]
      rw [rendersSet_append _ _ _ (withKeys_any_ge done 0 done.length (by omega))]
      rw [withKeys_append done [b] 0, Nat.zero_add]
      rw [show rowsFrom 0 (done.length + 1) =
            rowsFrom 0 done.length ++ rowsFrom (0 + done.length) 1 from rowsFrom_add done.length 0 1]
      rw [Nat.zero_add]
      rfl]
    have hlen : (done ++ [b]).length = done.length + 1 := by simp
    have happ := ih (done ++ [b]) c (by omega)
    rw [hlen] at happ
    rw [happ]
    rw [List.append_assoc]
    rw [show ([b] ++ rest : List Bytes) = b :: rest from rfl]
    rw [show done.length + 1 + rest.length = done.length + (rest.length + 1) from by omega]
    rfl

theorem updateStore_step (st : RStore) (s : RSession) (bs : List Bytes) (pk : Nat)
    (hpk : pk ≤ bs.length)
    (hr : s.renders = withKeys 0 bs)
    (hrows : st.rows = rowsFrom 0 pk)
    (hfiles : st.files = withKeys 0 (bs.take pk)) :
    updateStore st s = ⟨rowsFrom 0 bs.length, withKeys 0 bs, s.currentRenderId⟩ := by
  obtain ⟨rows0, files0, cur0⟩ := st
  simp only at hrows hfiles
  subst hrows
  subst hfiles
  unfold updateStore
  rw [hr]
  have htake : (bs.take pk).length = pk := by
    rw [List.length_take]
    omega
  have hsplit : withKeys 0 bs = withKeys 0 (bs.take pk) ++ withKeys pk (bs.drop pk) := by
    conv_lhs => rw [show bs = bs.take pk ++ bs.drop pk from (List.take_append_drop pk bs).symm]
    rw [withKeys_append, Nat.zero_add, htake]
  simp only []
  rw [hsplit, List.foldl_append]
  rw [updateFold_skip _ _ 0 _ (fun j h1 h2 => by
    rw [show ((rowsFrom 0 pk).map (fun r => r.1)) = (rowsFrom 0 pk).map Prod.fst from rfl]
    exact rowsFrom_contains_lt pk 0 j h1 (by rw [htake] at h2; omega))]
  have hstart : (⟨rowsFrom 0 pk, withKeys 0 (bs.take pk), cur0⟩ : RStore) =
      ⟨rowsFrom 0 (bs.take pk).length, withKeys 0 (bs.take pk), cur0⟩ := by
    rw [htake]
  rw [show withKeys pk (bs.drop pk) = withKeys (bs.take pk).length (bs.drop pk) from by
        rw [htake]]
  rw [hstart]
  rw [updateFold_insert _ pk (fun j hj => by
      rw [show ((rowsFrom 0 pk).map (fun r => r.1)) = (rowsFrom 0 pk).map Prod.fst from rfl]
      exact rowsFrom_contains_ge pk 0 j (by omega)) _ _ _ (by rw [htake])]
  rw [List.take_append_drop]
  rw [htake, List.length_drop]
  rw [show pk + (bs.length - pk) = bs.length from by omega]
  rw [← hsplit]

theorem withKeys_find (bs : List Bytes) :
    ∀ i j, i ≤ j → j < i + bs.length →
      (withKeys i bs).find? (fun f => f.1 == keyOf j) = some (keyOf j, bs.getD (j - i) []) := by
  induction bs with
  | nil => intro i j h1 h2; simp at h2; omega
  | cons b rest ih =>
    intro i j h1 h2
    rw [show withKeys i (b :: rest) = (keyOf i, b) :: withKeys (i + 1) rest from rfl]
    by_cases he : j = i
    · subst he
      rw [List.find?_cons_of_pos _ (by simp)]
      rw [Nat.sub_self]
      rfl
    · rw [List.find?_cons_of_neg _ (by
        show ¬((keyOf i, b).1 == keyOf j) = true
        rw [show ((keyOf i, b).1 == keyOf j) = (keyOf i == keyOf j) from rfl]
        rw [keyOf_beq_false i j (fun hij => he hij.symm)]
        exact Bool.false_ne_true)]
      rw [ih (i + 1) j (by omega) (by simp at h2 ⊢; omega)]
      rw [show j - i = (j - (i + 1)) + 1 from by omega]
      rfl

theorem sortByIndex_rowsFrom (n : Nat) : ∀ i, sortByIndex (rowsFrom i n) = rowsFrom i n := by
  induction n with
  | zero => intro i; rfl
  | succ m ih =>
    intro i
    rw [show rowsFrom i (m + 1) = (keyOf i, i + 1) :: rowsFrom (i + 1) m from rfl]
    unfold sortByIndex
    rw [List.foldr_cons]
    rw [show List.foldr insertByIndex [] (rowsFrom (i + 1) m) =
          sortByIndex (rowsFrom (i + 1) m) from rfl]
    rw [ih (i + 1)]
    cases m with
    | zero => rfl
    | succ k =>
      rw [show rowsFrom (i + 1) (k + 1) = (keyOf (i + 1), i + 1 + 1) :: rowsFrom (i + 1 + 1) k
            from rfl]
      unfold insertByIndex
      rw [if_pos (show (keyOf i, i + 1).2 < (keyOf (i + 1), i + 1 + 1).2 from by
        show i + 1 < i + 1 + 1
        omega)]

theorem rows_filterMap_files (bs : List Bytes) :
    ∀ (n i : Nat), i + n ≤ bs.length →
      (rowsFrom i n).filterMap
          (fun r => ((withKeys 0 bs).find? (fun f => f.1 == r.1)).map (fun f => (r.1, f.2)))
        = withKeys i ((bs.drop i).take n) := by
  intro n
  induction n with
  | zero =>
    intro i h
    rfl
  | succ m ih =>
    intro i h
    rw [show rowsFrom i (m + 1) = (keyOf i, i + 1) :: rowsFrom (i + 1) m from rfl]
    rw [List.filterMap_cons]
    dsimp only
    rw [withKeys_find bs 0 i (by omega) (by omega)]
    rw [Nat.sub_zero]
    rw [Option.map_some']
    rw [ih (i + 1) (by omega)]
    have hdrop : bs.drop i = bs.getD i [] :: bs.drop (i + 1) := by
      rw [List.getD_eq_getElem bs [] (by omega)]
      exact List.drop_eq_getElem_cons (by omega)
    rw [hdrop, List.take_succ_cons]
    rfl

theorem loadSession_step (st : RStore) (bs : List Bytes)
    (hrows : st.rows = rowsFrom 0 bs.length)
    (hfiles : st.files = withKeys 0 bs) :
    loadSession st = ⟨withKeys 0 bs, st.current⟩ := by
  unfold loadSession
  rw [hrows, hfiles, sortByIndex_rowsFrom]
  rw [rows_filterMap_files bs bs.length 0 (by omega)]
  rw [List.drop_zero, List.take_length]

theorem runOps_ids (ops : List SessionOp) :
    ∀ (s : RSession) (st : RStore) (dirty : Bool) (bs : List Bytes) (pk : Nat),
      wellSaved dirty ops = true →
      pk ≤ bs.length →
      s.renders = withKeys 0 bs →
      st.rows = rowsFrom 0 pk →
      st.files = withKeys 0 (bs.take pk) →
      (dirty = false → pk = bs.length) →
      (runSessionOps (s, st) ops).2 =
        (List.range' bs.length (countRenders ops)).map keyOf := by
  induction ops with
  | nil =>
    intro s st dirty bs pk _ _ _ _ _ _
    rfl
  | cons op rest ih =>
    cases op with
    | render b =>
      intro s st dirty bs pk hws hpk hr hrows hfiles _
      rw [show runSessionOps (s, st) (SessionOp.render b :: rest) =
            ((runSessionOps ((store_render s b).1, st) rest).1,
             (store_render s b).2 :: (runSessionOps ((store_render s b).1, st) rest).2) from rfl]
      rw [store_render_step s b bs hr]
      dsimp only
      rw [ih _ st true (bs ++ [b]) pk hws (by simp; omega) rfl hrows
            (by rw [List.take_append_of_le_length hpk]; exact hfiles)
            (fun hf => nomatch hf)]
      rw [show (bs ++ [b]).length = bs.length + 1 from by simp]
      rw [show countRenders (SessionOp.render b :: rest) = countRenders rest + 1 from rfl]
      rw [List.range'_succ, List.map_cons]
    | persist =>
      intro s st dirty bs pk hws hpk hr hrows hfiles _
      rw [show runSessionOps (s, st) (SessionOp.persist :: rest) =
            runSessionOps (s, updateStore st s) rest from rfl]
      rw [updateStore_step st s bs pk hpk hr hrows hfiles]
      exact ih s _ false bs bs.length hws le_rfl hr rfl
        (by show withKeys 0 bs = withKeys 0 (bs.take bs.length); rw [List.take_length])
        (fun _ => rfl)
    | reload =>
      intro s st dirty bs pk hws hpk hr hrows hfiles hclean
      have hws2 : (!dirty && wellSaved dirty rest) = true := hws
      rw [Bool.and_eq_true] at hws2
      have hdirty : dirty = false := by
        cases dirty
        · rfl
        · simp at hws2
      subst hdirty
      have hpkeq : pk = bs.length := hclean rfl
      subst hpkeq
      rw [List.take_length] at hfiles
      rw [show runSessionOps (s, st) (SessionOp.reload :: rest) =
            runSessionOps (loadSession st, st) rest from rfl]
      rw [loadSession_step st bs hrows hfiles]
      exact ih _ st false bs bs.length hws2.2 le_rfl rfl hrows
        (by rw [List.take_length]; exact hfiles) (fun _ => rfl)

/-- C5: `store_render` assigns render ids `"v1"`, `"v2"`, … in strictly
increasing order with none ever reused, across the whole session lifetime
including persistence (`SessionStore.update`) and reloads from durable
storage (`SessionStore.get`) — for every operation sequence in which each
reload happens in a persisted state (the server persists the session after
every agent turn, so its reloads are of this shape).  The ids collected
from a run started on a fresh session are exactly `keyOf 0, keyOf 1, …` =
`"v1", "v2", …` in order, and form a duplicate-free list. -/
theorem store_render_ids_sequential (ops : List SessionOp)
    (h : wellSaved false ops = true) :
    (runSessionOps freshSessionState ops).2 =
      (List.range' 0 (countRenders ops)).map keyOf ∧
    (runSessionOps freshSessionState ops).2.Nodup := by
  have hids : (runSessionOps freshSessionState ops).2 =
      (List.range' 0 (countRenders ops)).map keyOf :=
    runOps_ids ops { renders := [], currentRenderId := none }
      { rows := [], files := [], current := none } false [] 0 h le_rfl rfl rfl rfl
      (fun _ => rfl)
  refine ⟨hids, ?_⟩
  rw [hids]
  exact List.Nodup.map (fun a b hab => keyOf_inj a b hab) (List.nodup_range' 0 (countRenders ops))

/-- Witness for `store_render_ids_sequential`: render, persist, reload,
render yields ids `["v1", "v2"]`, duplicate-free. -/
theorem store_render_ids_sequential_witness :
    wellSaved false c5ops = true ∧
    ((runSessionOps freshSessionState c5ops).2 =
        (List.range' 0 (countRenders c5ops)).map keyOf ∧
     (runSessionOps freshSessionState c5ops).2.Nodup) :=
  ⟨by decide, store_render_ids_sequential c5ops (by decide)⟩
